import Mathlib

/-!
# memorycode: the profile store and media ingestion of `server.js`

A shallow embedding of the request handlers of `src/server.js` and the proofs of
the properties stated about them.

Modelling conventions.

* A JavaScript string is a sequence of UTF-16 code units. Where the code compares,
  concatenates or scans a string, the model takes it as the list of its Unicode
  characters (`Str`, a well-formed string). Where the code counts or cuts code
  units, the model works on code units: the fields of a guestbook message, which
  `substring` cuts, are lists of code units (`Units`), and the replacement in the
  `filename` callback of the upload replaces each code unit of a character.
* Request fields are `Option`s: `none` is an absent (undefined) field. A field
  that is present is a string; other JSON types in a request body are outside
  the model.
* The file system is a map from normalized absolute paths (the list of segments
  below the root) to nodes: a directory or a regular file. In a real file
  system the root is a directory and so is the parent of every node; the
  operations are stated for such file systems, the theorems hold for every map.
  Operating-system limits and faults (permissions, a full disk, the length of a
  name, a NUL character in a name) are outside the model, except for the one
  fault that the source handles itself: the `try/catch` around `fs.unlinkSync`
  in `/api/delete-file`, modelled by the oracle `Env.unlinkThrows`.
* `fs.mkdirSync(_, {recursive: true})` makes the missing directories of a path
  and throws when a regular file lies on the path. Lines 13-14 make
  `UPLOADS_DIR` and `DATA_DIR` when the server starts, and no handler removes a
  directory.
* A regular file either holds a profile document (`File.doc`, what `JSON.parse`
  of its text returns) or anything else (`File.other`, for which `JSON.parse`
  throws).
* The digest `crypto.createHash('sha256')`, the admin secret
  `process.env.ADMIN_PASS`, `__dirname` and the version of the static file
  middleware are parameters, collected in `Env`.
* `Date.now()` is read from the request record: every reading the handler makes
  is a field of the request.
* A handler returns the response together with the file system it leaves. An
  exception that a route handler throws is answered 500 by Express (`thrown`);
  an exception thrown inside the callbacks that multer calls is not caught by
  anything: the process ends and the request gets no response (`processExit`).
* `GET /api/audios` (a directory listing) and `GET /api/profile-qr` (the QR image
  of the profile URL) read no document and are not modelled.
-/

namespace MemoryCode

/-! ## Strings and request fields -/

/-- A well-formed JavaScript string: the list of its characters. -/
abbrev Str := List Char

/-- A JavaScript string as the list of its UTF-16 code units. -/
abbrev Units := List Nat

/-- The UTF-16 code units of a character: one unit below `U+10000`, and a
surrogate pair from there on. -/
def utf16Char (c : Char) : Units :=
  if c.toNat < 0x10000 then [c.toNat]
  else [0xD800 + (c.toNat - 0x10000) / 0x400, 0xDC00 + (c.toNat - 0x10000) % 0x400]

/-- The UTF-16 code units of a well-formed string. -/
def utf16 (s : Str) : Units := (s.map utf16Char).flatten

/-- JavaScript truthiness of a string-or-undefined value: `!x` is `!truthy x`. -/
def truthy {α : Type} : Option (List α) → Bool
  | none => false
  | some s => !s.isEmpty

/-- The idiom `x || ''`. -/
def orEmpty {α : Type} : Option (List α) → List α
  | none => []
  | some s => s

/-- The idiom `x || d` for a string default `d`. -/
def orDefault {α : Type} (x : Option (List α)) (d : List α) : List α :=
  if truthy x then orEmpty x else d

/-! ## Data model (the JSON document written by `/api/create-profile`) -/

/-- An entry of `photos`, `audios` or `videos`. -/
structure MediaAsset where
  name : Str
  displayName : Str
  url : Str
  ts : Nat
  deriving DecidableEq, Repr

/-- An entry of `messages`; `name` and `text` are results of `substring`, which may
end in one half of a surrogate pair. -/
structure Message where
  name : Units
  text : Units
  ts : Nat
  deriving DecidableEq, Repr

/-- An entry of `playlists`. -/
structure PlaylistRef where
  platform : Str
  id : Str
  url : Str
  ts : Nat
  deriving DecidableEq, Repr

/-- The profile document, with the keys of line 40 of `server.js` in their order. -/
structure Profile where
  id : Str
  name : Str
  bio : Str
  photo : Str
  story : Str
  quote : Str
  passHash : Str
  photos : List MediaAsset
  audios : List MediaAsset
  videos : List MediaAsset
  messages : List Message
  playlists : List PlaylistRef
  deriving DecidableEq, Repr

/-- The value of one key of a profile document. -/
inductive Val
  | str (s : Str)
  | assets (l : List MediaAsset)
  | msgs (l : List Message)
  | refs (l : List PlaylistRef)
  deriving DecidableEq, Repr

/-- The document as the object `JSON.parse` returns: its keys and values, in order. -/
def Profile.toObject (p : Profile) : List (String × Val) :=
  [("id", .str p.id), ("name", .str p.name), ("bio", .str p.bio), ("photo", .str p.photo),
   ("story", .str p.story), ("quote", .str p.quote), ("passHash", .str p.passHash),
   ("photos", .assets p.photos), ("audios", .assets p.audios), ("videos", .assets p.videos),
   ("messages", .msgs p.messages), ("playlists", .refs p.playlists)]

/-! ## Paths and the file system -/

/-- A normalized absolute path: its segments below the root. -/
abbrev Path := List Str

/-- A regular file. -/
inductive File
  | doc (p : Profile)
  | other (content : Str)
  deriving DecidableEq, Repr

/-- A node of the file system: a directory or a regular file. -/
inductive Node
  | dir
  | file (f : File)
  deriving DecidableEq, Repr

/-- The file system: the node at every path that has one. -/
abbrev FS := Path → Option Node

/-- Split a string at every `/`. -/
def splitSlash : Str → List Str
  | [] => [[]]
  | c :: cs =>
    if c = '/' then [] :: splitSlash cs
    else
      match splitSlash cs with
      | [] => [[c]]
      | s :: ss => (c :: s) :: ss

/-- The normalization of `path.normalize` on the segments of an absolute path:
empty segments and `.` are dropped, `..` removes the segment before it (and
nothing at the root). `stack` holds the segments kept so far, last one first. -/
def normSegs (stack : List Str) : List Str → List Str
  | [] => stack.reverse
  | seg :: rest =>
    if seg = [] ∨ seg = ['.'] then normSegs stack rest
    else if seg = ['.', '.'] then normSegs stack.tail rest
    else normSegs (seg :: stack) rest

/-- What `path.join` returns: the normalized segments, and whether the joined
string ends in `/` (such a path can only name a directory). -/
structure FilePath where
  segs : Path
  trailingSlash : Bool
  deriving DecidableEq, Repr

/-- The call `path.join(base, ...parts)` for a normalized absolute `base`. -/
def pathJoin (base : Path) (parts : List Str) : FilePath :=
  { segs := normSegs base.reverse (parts.map splitSlash).flatten
    trailingSlash :=
      match (parts.filter (fun s => !s.isEmpty)).getLast? with
      | some s => s.getLast? == some '/'
      | none => false }

/-- The call `fs.existsSync(p)`: true for a directory and for a regular file; a
path that ends in `/` names a directory only. -/
def existsSync (fs : FS) (p : FilePath) : Bool :=
  match fs p.segs with
  | some .dir => true
  | some (.file _) => !p.trailingSlash
  | none => false

/-- The expression `JSON.parse(fs.readFileSync(p, 'utf8'))`: `none` when it throws
(a directory, no file, or a file that holds no document). -/
def readJson (fs : FS) (p : FilePath) : Option Profile :=
  if p.trailingSlash then none
  else
    match fs p.segs with
    | some (.file (.doc d)) => some d
    | _ => none

/-- The file system after a regular file is written at `p`. -/
def FS.write (fs : FS) (p : Path) (f : File) : FS :=
  fun q => if q = p then some (.file f) else fs q

/-- The file system after the file at `p` is removed. -/
def FS.remove (fs : FS) (p : Path) : FS :=
  fun q => if q = p then none else fs q

/-- Whether a regular file is at `p`. -/
def FS.isFile (fs : FS) (p : Path) : Bool :=
  match fs p with
  | some (.file _) => true
  | _ => false

/-- The file system in which `p` and every path above it are directories. -/
def FS.withDirs (fs : FS) (p : Path) : FS :=
  fun q => if q.isPrefixOf p then some .dir else fs q

/-- The call `fs.mkdirSync(p, {recursive: true})`: `none` when it throws, which it
does when a regular file is at `p` or at a path above `p`; otherwise `p` and
every path above it are directories afterwards, and nothing else changes. -/
def mkdirSync (fs : FS) (p : Path) : Option FS :=
  if p.inits.any fs.isFile then none else some (fs.withDirs p)

/-- The call `fs.writeFileSync(p, JSON.stringify(d, null, 2))`, for a path at which
there is a regular file, or nothing in an existing directory. -/
def writeJson (fs : FS) (p : FilePath) (d : Profile) : FS :=
  fs.write p.segs (.doc d)

/-! ## Environment -/

/-- The parameters of the server process. -/
structure Env where
  /-- The hex digest `crypto.createHash('sha256').update(p).digest('hex')`. -/
  sha256hex : Str → Str
  /-- The value of `process.env.ADMIN_PASS || ''`. -/
  ADMIN : Str
  /-- The directory `__dirname`, normalized. -/
  dirname : Path
  /-- Whether `fs.unlinkSync` throws for the regular file at the path (a fault of the
  operating system). -/
  unlinkThrows : Path → Bool
  /-- Whether the static file middleware treats dotfiles as `send` does before its
  version 1 (express 4): only a last segment that starts with `.` is ignored.
  From version 1 on (express 5) every segment that starts with `.` is. -/
  legacyDotfiles : Bool

/-- The constant `UPLOADS_DIR`. -/
def UPLOADS_DIR (env : Env) : Path := env.dirname ++ ["uploads".toList]

/-- The constant `DATA_DIR`. -/
def DATA_DIR (env : Env) : Path := env.dirname ++ ["data".toList]

/-- The function `hashPass`; on a string `p || ''` is `p`. -/
def hashPass (env : Env) (p : Str) : Str := env.sha256hex p

/-- The path `path.join(DATA_DIR, id + ".json")` of the document of `id`. -/
def dataFile (env : Env) (id : Str) : FilePath :=
  pathJoin (DATA_DIR env) [id ++ ".json".toList]

/-! ## Responses -/

/-- The body of a response. -/
inductive Body
  | text (s : String)
  | error (s : String)
  | object (fields : List (String × Val))
  | messages (ms : List Message)
  | file (f : File)
  | noResponse
  deriving DecidableEq, Repr

/-- A response: its status code and body (the status 0 and the body `noResponse`
stand for a request that is not answered). -/
structure Response where
  status : Nat
  body : Body
  deriving DecidableEq, Repr

/-! ## `GET /api/profile` and `POST /api/create-profile` -/

/-- The handler of `GET /api/profile` (lines 24-32). -/
def getProfile (env : Env) (fs : FS) (id : Option Str) : Response :=
  if !truthy id then ⟨400, .error "Missing id"⟩
  else
    let file := dataFile env (orEmpty id)
    if !existsSync fs file then ⟨404, .error "Not found"⟩
    else
      match readJson fs file with
      | none => ⟨500, .text "Internal Server Error"⟩
      | some j => ⟨200, .object (j.toObject.filter (fun kv => kv.1 != "passHash"))⟩

/-- A character of the class `[A-Za-z0-9_-]`. -/
def idChar (c : Char) : Bool :=
  c.isAlphanum || c == '_' || c == '-'

/-- The test `/^[A-Za-z0-9_-]+$/.test(id)`. -/
def idPattern (id : Str) : Bool :=
  !id.isEmpty && id.all idChar

/-- The body of a create-profile request. -/
structure CreateReq where
  id : Option Str
  name : Option Str
  passcode : Option Str
  bio : Option Str

/-- The response when a route handler throws an exception it does not catch:
Express answers 500. Nothing further is written. -/
def thrown : Response := ⟨500, .text "Internal Server Error"⟩

/-- The outcome of an exception thrown inside a callback that multer calls (the
`destination` callback of lines 113-117, the callback of lines 125-167): no
`try` encloses the call, the exception is uncaught and the process ends. The
request gets no response and nothing further is written. -/
def processExit : Response := ⟨0, .noResponse⟩

/-- The handler of `POST /api/create-profile` (lines 34-44). -/
def createProfile (env : Env) (fs : FS) (r : CreateReq) : Response × FS :=
  if !truthy r.id || !idPattern (orEmpty r.id) then (⟨400, .text "Invalid id"⟩, fs)
  else
    let id := orEmpty r.id
    let file := dataFile env id
    if existsSync fs file then (⟨409, .text "Profile exists"⟩, fs)
    else
      let passHash := hashPass env (orEmpty r.passcode)
      let profile : Profile :=
        { id := id, name := orEmpty r.name, bio := orEmpty r.bio, photo := [], story := [],
          quote := [], passHash := passHash, photos := [], audios := [], videos := [],
          messages := [], playlists := [] }
      match mkdirSync fs (pathJoin (UPLOADS_DIR env) [id, "audios".toList]).segs with
      | none => (thrown, fs)
      | some fs1 => (⟨201, .text "Created"⟩, writeJson fs1 file profile)

/-! ## `POST /api/edit-profile` and `POST /api/login` -/

/-- The body of an edit-profile request. -/
structure EditReq where
  name : Option Str
  bio : Option Str
  passcode : Option Str
  newPhoto : Option Str
  story : Option Str
  quote : Option Str

/-- The five assignments `if (x !== undefined) profile.x = x` of lines 56-60. -/
def applyEdit (p : Profile) (r : EditReq) : Profile :=
  let p := match r.name with | some v => { p with name := v } | none => p
  let p := match r.bio with | some v => { p with bio := v } | none => p
  let p := match r.newPhoto with | some v => { p with photo := v } | none => p
  let p := match r.story with | some v => { p with story := v } | none => p
  match r.quote with | some v => { p with quote := v } | none => p

/-- The handler of `POST /api/edit-profile` (lines 46-63). -/
def editProfile (env : Env) (fs : FS) (id : Option Str) (r : EditReq) : Response × FS :=
  if !truthy id then (⟨400, .text "Missing id"⟩, fs)
  else
    let pass := orEmpty r.passcode
    let file := dataFile env (orEmpty id)
    if !existsSync fs file then (⟨404, .text "Profile not found"⟩, fs)
    else
      match readJson fs file with
      | none => (thrown, fs)
      | some profile =>
        let passOk := hashPass env pass == profile.passHash
        if !passOk then (⟨403, .text "Bad passcode"⟩, fs)
        else (⟨200, .text "OK"⟩, writeJson fs file (applyEdit profile r))

/-- The handler of `POST /api/login` (lines 65-76); `pass` is
`req.body.passcode || req.body.pass || ''`. -/
def login (env : Env) (fs : FS) (id : Option Str) (pass : Str) : Response :=
  if !truthy id then ⟨400, .text "Missing id"⟩
  else
    let file := dataFile env (orEmpty id)
    if !existsSync fs file then ⟨404, .text "Profile not found"⟩
    else
      match readJson fs file with
      | none => thrown
      | some profile =>
        let passOk := (!env.ADMIN.isEmpty && pass == env.ADMIN)
          || hashPass env pass == profile.passHash
        if !passOk then ⟨403, .text "Bad passcode"⟩ else ⟨200, .text "OK"⟩

/-! ## `POST /api/upload` -/

/-- A character the replacement `/[^a-zA-Z0-9.\-_.]/g` leaves in place. -/
def safeChar (c : Char) : Bool :=
  c.isAlphanum || c == '.' || c == '-' || c == '_'

/-- What the replacement makes of one character: a character of the class stays,
any other is replaced code unit by code unit (the pattern has no `u` flag), so
a character outside the Basic Multilingual Plane becomes two underscores. -/
def sanitizeChar (c : Char) : Str :=
  if safeChar c then [c] else (utf16Char c).map (fun _ => '_')

/-- The expression `file.originalname.replace(/[^a-zA-Z0-9.\-_.]/g, '_')`. -/
def sanitize (s : Str) : Str :=
  (s.map sanitizeChar).flatten

/-- The storage filename `Date.now() + '-' + safe` of line 120. -/
def storageName (now : Nat) (originalname : Str) : Str :=
  Nat.toDigits 10 now ++ '-' :: sanitize originalname

/-- One file part of a multipart upload request. The part is within the size limit
of line 124 and its stream ends normally. -/
structure UploadedFile where
  originalname : Str
  mimetype : Option Str
  content : File
  /-- The reading of `Date.now()` in the `filename` callback (line 120). -/
  nameClock : Nat
  /-- The reading of `Date.now()` when the record is pushed (lines 157-161). -/
  pushClock : Nat

/-- The body of an upload request, which is multipart form data: the field
`passcode` and the file parts, in their order. -/
structure UploadReq where
  passcode : Option Str
  files : List UploadedFile
  /-- The body is not well-formed multipart data: multer reports an error before it
  reads a part. -/
  multerError : Bool

/-- An entry of `req.files`: the part and where multer stored it. -/
structure StoredFile where
  part : UploadedFile
  filename : Str
  path : Path

/-- What multer's disk storage makes of the file parts of a request. -/
inductive MulterResult
  /-- Every part is stored: the file system and `req.files`. -/
  | stored (fs : FS) (files : List StoredFile)
  /-- A part cannot be written: multer removes the parts it has stored and calls
  back with an error. -/
  | failed (fs : FS)
  /-- The `destination` callback throws: the process ends. -/
  | exit (fs : FS)

/-- The disk storage of multer (lines 112-122), part by part in the order of the
request. For each part the `destination` callback makes the directory
`path.join(UPLOADS_DIR, id)`, the `filename` callback gives the storage filename,
and the part is written to `path.join(destination, filename)`, over a regular
file that may be there; it cannot be written when that path is a directory. -/
def multerStore (env : Env) (id : Str) : FS → List UploadedFile → MulterResult
  | fs, [] => .stored fs []
  | fs, f :: rest =>
    let dir := pathJoin (UPLOADS_DIR env) [id]
    match mkdirSync fs dir.segs with
    | none => .exit fs
    | some fs1 =>
      let filename := storageName f.nameClock f.originalname
      let path := (pathJoin dir.segs [filename]).segs
      if fs1 path = some .dir then .failed fs1
      else
        match multerStore env id (fs1.write path f.content) rest with
        | .stored fs2 files => .stored fs2 (⟨f, filename, path⟩ :: files)
        | .failed fs2 => .failed (fs2.remove path)
        | .exit fs2 => .exit fs2

/-- The method `String.prototype.toLowerCase` on one character: the ASCII capitals,
the Kelvin sign (to `k`) and the dotted capital I (to `i` and a combining dot).
No other character has a lower case in ASCII; the others are left as they are. -/
def lowerChar (c : Char) : Str :=
  if c.isUpper then [c.toLower]
  else if c = Char.ofNat 0x212A then ['k']
  else if c = Char.ofNat 0x130 then ['i', Char.ofNat 0x307]
  else [c]

/-- The method `String.prototype.toLowerCase`. -/
def toLowerCase (s : Str) : Str := (s.map lowerChar).flatten

/-- The last component of a path string, trailing `/` ignored (what
`path.extname` scans). -/
def lastComponent (s : Str) : Str :=
  ((s.reverse.dropWhile (fun c => c == '/')).takeWhile (fun c => c != '/')).reverse

/-- The function `path.extname` (POSIX): from the last `.` of the last component to
its end; empty when there is no `.`, when the only `.` is the first character,
or when the component is `..`. -/
def extname (s : Str) : Str :=
  let b := lastComponent s
  let after := (b.reverse.takeWhile (fun c => c != '.')).reverse
  if !b.contains '.' then []
  else if b.length = after.length + 1 then []
  else if b = ['.', '.'] then []
  else '.' :: after

/-- The subdirectory chosen by lines 140-150. -/
def subdirOf (mimetype : Option Str) (originalname : Str) : Str :=
  if truthy mimetype && "image/".toList.isPrefixOf (orEmpty mimetype) then "photos".toList
  else if truthy mimetype && "audio/".toList.isPrefixOf (orEmpty mimetype) then "audios".toList
  else if truthy mimetype && "video/".toList.isPrefixOf (orEmpty mimetype) then "videos".toList
  else
    let ext := toLowerCase (extname originalname)
    if ext ∈ [".jpg".toList, ".jpeg".toList, ".png".toList, ".webp".toList, ".gif".toList,
        ".bmp".toList] then "photos".toList
    else if ext ∈ [".mp3".toList, ".wav".toList, ".ogg".toList, ".m4a".toList,
        ".flac".toList] then "audios".toList
    else if ext ∈ [".mp4".toList, ".mov".toList, ".webm".toList, ".mkv".toList] then
      "videos".toList
    else "files".toList

/-- The call `fs.renameSync(old, new)` for a path `old` at which multer has stored a
part: `none` when it throws, which it does when no file is at `old` any more
or a directory is at `new`; otherwise the file moves to `new`, over a regular
file that may be there. -/
def renameSync (fs : FS) (old new : Path) : Option FS :=
  match fs old with
  | some (.file f) => if fs new = some .dir then none else some ((fs.remove old).write new f)
  | _ => none

/-- The record pushed for a stored file (lines 155-161). -/
def recordOf (id subdir : Str) (f : StoredFile) : MediaAsset :=
  { name := f.filename
    displayName := f.part.originalname
    url := "/uploads/".toList ++ id ++ '/' :: subdir ++ '/' :: f.filename
    ts := f.part.pushClock }

/-- The three branches `meta.<subdir>.push(...)` of lines 156-162. -/
def pushRecord (doc : Profile) (subdir : Str) (a : MediaAsset) : Profile :=
  if subdir = "photos".toList then { doc with photos := doc.photos ++ [a] }
  else if subdir = "audios".toList then { doc with audios := doc.audios ++ [a] }
  else if subdir = "videos".toList then { doc with videos := doc.videos ++ [a] }
  else doc

/-- The loop of lines 138-163 over `req.files`. `Except.error` carries the file
system at the moment `fs.mkdirSync` or `fs.renameSync` throws. -/
def uploadLoop (env : Env) (id : Str) : List StoredFile → Profile → FS → Except FS (Profile × FS)
  | [], doc, fs => .ok (doc, fs)
  | f :: rest, doc, fs =>
    let subdir := subdirOf f.part.mimetype f.part.originalname
    let subdirPath := pathJoin (UPLOADS_DIR env) [id, subdir]
    match mkdirSync fs subdirPath.segs with
    | none => .error fs
    | some fs0 =>
      let newPath := pathJoin subdirPath.segs [f.filename]
      match renameSync fs0 f.path newPath.segs with
      | none => .error fs0
      | some fs1 => uploadLoop env id rest (pushRecord doc subdir (recordOf id subdir f)) fs1

/-- The check `(ADMIN && pass === ADMIN) || (hashPass(pass) === meta.passHash)`. -/
def adminOrPass (env : Env) (pass : Str) (doc : Profile) : Bool :=
  (!env.ADMIN.isEmpty && pass == env.ADMIN) || hashPass env pass == doc.passHash

/-- The callback of lines 125-167, which multer calls with no error once the parts
are stored: `files` is `req.files`. -/
def afterMulter (env : Env) (fs1 : FS) (id : Str) (passcode : Option Str)
    (files : List StoredFile) : Response × FS :=
  let pass := orEmpty passcode
  let file := dataFile env id
  if !existsSync fs1 file then (⟨404, .text "Profile not found"⟩, fs1)
  else
    match readJson fs1 file with
    | none => (processExit, fs1)
    | some doc =>
      if !adminOrPass env pass doc then (⟨403, .text "Bad passcode"⟩, fs1)
      else
        match uploadLoop env id files doc fs1 with
        | .error fs2 => (processExit, fs2)
        | .ok (doc2, fs2) => (⟨200, .text "OK"⟩, writeJson fs2 file doc2)

/-- The handler of `POST /api/upload` (lines 108-168). -/
def upload (env : Env) (fs : FS) (id : Option Str) (r : UploadReq) : Response × FS :=
  if !truthy id then (⟨400, .text "Missing id"⟩, fs)
  else if r.multerError then (⟨500, .text "Upload error"⟩, fs)
  else
    match multerStore env (orEmpty id) fs r.files with
    | .exit fs1 => (processExit, fs1)
    | .failed fs1 => (⟨500, .text "Upload error"⟩, fs1)
    | .stored fs1 files => afterMulter env fs1 (orEmpty id) r.passcode files

/-! ## `POST /api/delete-file` -/

/-- The body of a delete-file request. -/
structure DeleteReq where
  type : Option Str
  filename : Option Str
  passcode : Option Str

/-- The three branches `profile.<type> = profile.<type>.filter(...)` of lines 189-191. -/
def removeRecord (doc : Profile) (type filename : Str) : Profile :=
  if type = "photos".toList then
    { doc with photos := doc.photos.filter (fun a => a.name != filename) }
  else if type = "audios".toList then
    { doc with audios := doc.audios.filter (fun a => a.name != filename) }
  else if type = "videos".toList then
    { doc with videos := doc.videos.filter (fun a => a.name != filename) }
  else doc

/-- The handler of `POST /api/delete-file` (lines 170-197). The call `fs.unlinkSync`
throws for a directory, and for a regular file when the oracle says so; the
`catch` of line 194 answers both. -/
def deleteFile (env : Env) (fs : FS) (id : Option Str) (r : DeleteReq) : Response × FS :=
  if !truthy id then (⟨400, .text "Missing id"⟩, fs)
  else if !truthy r.type || !truthy r.filename || !truthy r.passcode then
    (⟨400, .text "Missing type, filename, or passcode"⟩, fs)
  else
    let file := dataFile env (orEmpty id)
    if !existsSync fs file then (⟨404, .text "Profile not found"⟩, fs)
    else
      match readJson fs file with
      | none => (thrown, fs)
      | some profile =>
        let passOk := hashPass env (orEmpty r.passcode) == profile.passHash
        if !passOk then (⟨403, .text "Bad passcode"⟩, fs)
        else
          let filePath := pathJoin (UPLOADS_DIR env) [orEmpty id, orEmpty r.type, orEmpty r.filename]
          if !existsSync fs filePath then (⟨404, .text "File not found"⟩, fs)
          else if !fs.isFile filePath.segs then (⟨500, .text "Delete failed"⟩, fs)
          else if env.unlinkThrows filePath.segs then (⟨500, .text "Delete failed"⟩, fs)
          else
            let fs1 := fs.remove filePath.segs
            (⟨200, .text "Deleted"⟩,
              writeJson fs1 file (removeRecord profile (orEmpty r.type) (orEmpty r.filename)))

/-! ## `POST /api/add-message` and `GET /api/messages` -/

/-- The body of an add-message request, its strings as UTF-16 code units, and the
reading of `Date.now()`. -/
structure MessageReq where
  name : Option Units
  message : Option Units
  now : Nat

/-- The call `s.substring(0, n)`: the first `n` UTF-16 code units of `s`, all of `s`
when it has fewer. -/
def substring0 (s : Units) (n : Nat) : Units := s.take n

/-- The message built by lines 209-213. -/
def newMessage (r : MessageReq) : Message :=
  { name := substring0 (orDefault r.name (utf16 "Anonymous".toList)) 100
    text := substring0 (orEmpty r.message) 500
    ts := r.now }

/-- The handler of `POST /api/add-message` (lines 199-218). -/
def addMessage (env : Env) (fs : FS) (id : Option Str) (r : MessageReq) : Response × FS :=
  if !truthy id then (⟨400, .text "Missing id"⟩, fs)
  else if !truthy r.message then (⟨400, .text "Message required"⟩, fs)
  else
    let file := dataFile env (orEmpty id)
    if !existsSync fs file then (⟨404, .text "Profile not found"⟩, fs)
    else
      match readJson fs file with
      | none => (thrown, fs)
      | some profile =>
        (⟨200, .text "Message added"⟩,
          writeJson fs file { profile with messages := profile.messages ++ [newMessage r] })

/-- The order of `(a, b) => b.ts - a.ts`: `a` may stand before `b`. -/
def newerFirst (a b : Message) : Prop := b.ts ≤ a.ts

instance : DecidableRel newerFirst := fun a b => inferInstanceAs (Decidable (b.ts ≤ a.ts))

/-- The call `messages.sort((a, b) => b.ts - a.ts)`. `Array.prototype.sort` is
stable, so its result is that of any stable sort: here insertion sort. -/
def sortMessages (ms : List Message) : List Message :=
  ms.insertionSort newerFirst

/-- The handler of `GET /api/messages` (lines 220-229). -/
def getMessages (env : Env) (fs : FS) (id : Option Str) : Response :=
  if !truthy id then ⟨400, .text "Missing id"⟩
  else
    let file := dataFile env (orEmpty id)
    if !existsSync fs file then ⟨404, .text "Profile not found"⟩
    else
      match readJson fs file with
      | none => thrown
      | some profile => ⟨200, .messages (sortMessages profile.messages)⟩

/-! ## Playlists -/

/-- The leftmost match of a pattern in a string (`String.prototype.match` with
a regular expression that has no `g` flag): `m` matches the pattern at the
start of its argument. -/
def firstMatch {α : Type} (m : Str → Option α) : Str → Option α
  | [] => m []
  | c :: cs =>
    match m (c :: cs) with
    | some r => some r
    | none => firstMatch m cs

/-- Match a literal at the start of a string: what follows it. -/
def afterLit (lit s : Str) : Option Str :=
  if lit.isPrefixOf s then some (s.drop lit.length) else none

/-- The pattern `spotify\.com\/playlist\/([a-zA-Z0-9]+)` at the start of a string:
capture group 1. The class is greedy and ends the pattern, so the group is the
longest run of class characters. -/
def spotifyAt (s : Str) : Option Str :=
  match afterLit "spotify.com/playlist/".toList s with
  | none => none
  | some rest =>
    let g := rest.takeWhile Char.isAlphanum
    if g.isEmpty then none else some g

/-- A character of the class `[a-z.]`. -/
def tldChar (c : Char) : Bool := c.isLower || c == '.'

/-- A character of the class `[a-zA-Z0-9\-]`. -/
def amazonIdChar (c : Char) : Bool := c.isAlphanum || c == '-'

/-- The pattern `music\.amazon\.[a-z.]+\/(playlists|user-playlists)\/([a-zA-Z0-9\-]+)`
at the start of a string: capture group 2. The run `[a-z.]+` is greedy and the
next character must be `/`, which is not in the class, so only the longest run
can match; the two alternatives start with different letters. -/
def amazonAt (s : Str) : Option Str :=
  match afterLit "music.amazon.".toList s with
  | none => none
  | some rest =>
    let tld := rest.takeWhile tldChar
    if tld.isEmpty then none
    else
      match afterLit ['/'] (rest.dropWhile tldChar) with
      | none => none
      | some rest2 =>
        let kind :=
          match afterLit "playlists".toList rest2 with
          | some r => some r
          | none => afterLit "user-playlists".toList rest2
        match kind with
        | none => none
        | some rest3 =>
          match afterLit ['/'] rest3 with
          | none => none
          | some rest4 =>
            let g := rest4.takeWhile amazonIdChar
            if g.isEmpty then none else some g

/-- What `extractPlaylistInfo` returns: `platform`, `id`, `url`. -/
structure PlaylistInfo where
  platform : Str
  id : Str
  url : Str
  deriving DecidableEq, Repr

/-- The function `extractPlaylistInfo` (lines 232-246). -/
def extractPlaylistInfo (url : Str) : Option PlaylistInfo :=
  match firstMatch spotifyAt url with
  | some g => some ⟨"spotify".toList, g, "https://open.spotify.com/playlist/".toList ++ g⟩
  | none =>
    match firstMatch amazonAt url with
    | some g => some ⟨"amazon".toList, g, url⟩
    | none => none

/-- The body of an add-playlist request, and the reading of `Date.now()`. -/
structure AddPlaylistReq where
  playlistUrl : Option Str
  passcode : Option Str
  now : Nat

/-- The handler of `POST /api/add-playlist` (lines 248-269). -/
def addPlaylist (env : Env) (fs : FS) (id : Option Str) (r : AddPlaylistReq) : Response × FS :=
  if !truthy id || !truthy r.playlistUrl || !truthy r.passcode then
    (⟨400, .text "Missing fields"⟩, fs)
  else
    let file := dataFile env (orEmpty id)
    if !existsSync fs file then (⟨404, .text "Profile not found"⟩, fs)
    else
      match readJson fs file with
      | none => (thrown, fs)
      | some profile =>
        let passOk := hashPass env (orEmpty r.passcode) == profile.passHash
        if !passOk then (⟨403, .text "Bad passcode"⟩, fs)
        else
          match extractPlaylistInfo (orEmpty r.playlistUrl) with
          | none => (⟨400, .text "Invalid playlist URL"⟩, fs)
          | some info =>
            (⟨200, .text "Playlist added"⟩,
              writeJson fs file { profile with
                playlists := profile.playlists ++ [⟨info.platform, info.id, info.url, r.now⟩] })

/-- The body of a delete-playlist request. -/
structure DeletePlaylistReq where
  playlistId : Option Str
  passcode : Option Str

/-- The handler of `POST /api/delete-playlist` (lines 271-289). -/
def deletePlaylist (env : Env) (fs : FS) (id : Option Str) (r : DeletePlaylistReq) :
    Response × FS :=
  if !truthy id || !truthy r.playlistId || !truthy r.passcode then
    (⟨400, .text "Missing fields"⟩, fs)
  else
    let file := dataFile env (orEmpty id)
    if !existsSync fs file then (⟨404, .text "Profile not found"⟩, fs)
    else
      match readJson fs file with
      | none => (thrown, fs)
      | some profile =>
        let passOk := hashPass env (orEmpty r.passcode) == profile.passHash
        if !passOk then (⟨403, .text "Bad passcode"⟩, fs)
        else
          (⟨200, .text "Playlist deleted"⟩,
            writeJson fs file { profile with
              playlists := profile.playlists.filter (fun p => p.id != orEmpty r.playlistId) })

/-! ## Static files (lines 16-17) -/

/-- The normalization of `path.normalize` on the segments of a relative path: as
`normSegs`, but a `..` that has no segment to remove is kept. `stack` holds the
segments kept so far, last one first. -/
def normRelSegs (stack : List Str) : List Str → List Str
  | [] => stack.reverse
  | seg :: rest =>
    if seg = [] ∨ seg = ['.'] then normRelSegs stack rest
    else if seg = ['.', '.'] then
      match stack with
      | top :: below =>
        if top = ['.', '.'] then normRelSegs (seg :: stack) rest else normRelSegs below rest
      | [] => normRelSegs [seg] rest
    else normRelSegs (seg :: stack) rest

/-- A character that the pattern `UP_PATH_REGEXP` of `send` takes as a separator: `/`
or the backslash. -/
def isSep (c : Char) : Bool := c == '/' || c == Char.ofNat 92

/-- The test of `UP_PATH_REGEXP`, `/(?:^|[\\/])\.\.(?:[\\/]|$)/`, on one segment of
the normalized path: `..` between separators or the ends of the segment. The
flag says whether a match may start at the head of the string. -/
def upPath : Bool → Str → Bool
  | _, [] => false
  | start, c :: cs =>
    (start && c == '.' &&
      (match cs with
        | ['.'] => true
        | '.' :: d :: _ => isSep d
        | _ => false))
    || upPath (isSep c) cs

/-- A segment that `send` takes as a dotfile: longer than one character and
starting with `.`. -/
def isDotfile (s : Str) : Bool :=
  decide (1 < s.length) && s.head? == some '.'

/-- The middleware `express.static(root)` for a plain GET of `pathname`, a path
without percent escapes, as the modules `serve-static` and `send` handle it
with their default options. The path `'./' + pathname` is normalized; a path
with a NUL character (400), a normalized path that still has a `..` (403) and
a dotfile that is ignored (404) are errors of `send`, and on an error below 500
the request falls through to the next middleware. For a path that ends in `/`
the file `index.html` of the directory is sent when there is one. Otherwise a
regular file is sent and a directory is answered by a redirection to the path
followed by `/`. `none` is a request that falls through. -/
def serveStatic (env : Env) (fs : FS) (root : Path) (pathname : Str) : Option Response :=
  if pathname.contains (Char.ofNat 0) then none
  else
    let segs := normRelSegs [] (splitSlash pathname)
    let trailing := pathname.getLast? == some '/'
    if segs.any (upPath true) then none
    else
      let ignored :=
        if env.legacyDotfiles then
          segs.any isDotfile && !trailing && (segs.getLast?.bind List.head?) == some '.'
        else segs.any isDotfile
      if ignored then none
      else if trailing then
        match fs (root ++ segs ++ ["index.html".toList]) with
        | some (.file f) => some ⟨200, .file f⟩
        | _ => none
      else
        match fs (root ++ segs) with
        | some (.file f) => some ⟨200, .file f⟩
        | some .dir => some ⟨301, .text "Redirecting"⟩
        | none => none

/-- The mount test of `app.use('/uploads', ...)`: the path starts with `/uploads`,
in any case of the letters, and `/` or nothing follows. -/
def underUploads (pathname : Str) : Bool :=
  (pathname.take 8).map Char.toLower == "/uploads".toList &&
    ((pathname.drop 8).isEmpty || (pathname.drop 8).head? == some '/')

/-- A GET request for a path that is not the path of an `/api` route:
`express.static(__dirname)`, then `express.static(UPLOADS_DIR)` for a path under
`/uploads`, which sees the path without that start, then 404. -/
def getStatic (env : Env) (fs : FS) (pathname : Str) : Response :=
  match serveStatic env fs env.dirname pathname with
  | some r => r
  | none =>
    if underUploads pathname then
      (serveStatic env fs (UPLOADS_DIR env) (pathname.drop 8)).getD ⟨404, .text "Not Found"⟩
    else ⟨404, .text "Not Found"⟩

/-! ## Predicates used in the statements -/

/-- A path segment that `path.join` keeps as it is: no `/`, not empty, not `.` or `..`. -/
def PlainSeg (s : Str) : Prop :=
  '/' ∉ s ∧ s ≠ [] ∧ s ≠ ['.'] ∧ s ≠ ['.', '.']

/-- The class `[A-Za-z0-9_-]`, spelled out. -/
def InIdClass (c : Char) : Prop :=
  ('A' ≤ c ∧ c ≤ 'Z') ∨ ('a' ≤ c ∧ c ≤ 'z') ∨ ('0' ≤ c ∧ c ≤ '9') ∨ c = '_' ∨ c = '-'

/-- An id that fully matches `[A-Za-z0-9_-]+`. -/
def ValidId (id : Str) : Prop :=
  id ≠ [] ∧ ∀ c ∈ id, InIdClass c

/-- Where the document of the profile `id` is stored: `data/<id>.json` under `__dirname`. -/
def docPath (env : Env) (id : Str) : Path :=
  DATA_DIR env ++ [id ++ ".json".toList]

/-- The profile `id` exists and its stored document is `d`. -/
def HasProfile (env : Env) (fs : FS) (id : Str) (d : Profile) : Prop :=
  ValidId id ∧ fs (docPath env id) = some (.file (.doc d))

/-- The guard of line 174: one of `type`, `filename`, `passcode` is absent or empty. -/
def DeleteReq.missing (r : DeleteReq) : Bool :=
  !truthy r.type || !truthy r.filename || !truthy r.passcode

instance : IsTotal Message newerFirst := ⟨fun a b => Nat.le_total b.ts a.ts⟩

instance : IsTrans Message newerFirst := ⟨fun _ _ _ hab hbc => Nat.le_trans hbc hab⟩

/-- A concrete environment for the examples: `__dirname` is `/srv`, the admin
secret is `root`, no unlink fault, express 4; `sha` stands for the digest. -/
def exampleEnv (sha : Str → Str) : Env :=
  ⟨sha, "root".toList, ["srv".toList], fun _ => false, true⟩

/-- The file system when the server has started in an empty directory `__dirname`:
lines 13-14 have made `uploads` and `data`. -/
def startStore (env : Env) : FS :=
  (FS.withDirs (fun _ => none) (UPLOADS_DIR env)).withDirs (DATA_DIR env)

/-- The document that create-profile stores for the id `abc` and the passcode `secret`. -/
def exampleDoc (sha : Str → Str) : Profile :=
  { id := "abc".toList, name := [], bio := [], photo := [], story := [], quote := [],
    passHash := sha "secret".toList, photos := [], audios := [], videos := [], messages := [],
    playlists := [] }

/-- The store after the server has started and `abc` is created with the passcode
`secret`. -/
def exampleStore (sha : Str → Str) : FS :=
  (createProfile (exampleEnv sha) (startStore (exampleEnv sha))
    ⟨some "abc".toList, none, some "secret".toList, none⟩).2

/-- An ASCII letter or digit: the class `[a-zA-Z0-9]`, spelled out. -/
def IsAsciiAlnum (c : Char) : Prop :=
  ('A' ≤ c ∧ c ≤ 'Z') ∨ ('a' ≤ c ∧ c ≤ 'z') ∨ ('0' ≤ c ∧ c ≤ '9')

/-- A Spotify playlist URL in the words of the specification: a playlist
identifier, one or more of `[A-Za-z0-9]`, following `spotify.com/playlist/`. -/
def SpotifyPlaylistUrl (url : Str) : Prop :=
  ∃ pre pid rest : Str,
    url = pre ++ "spotify.com/playlist/".toList ++ pid ++ rest ∧
    pid ≠ [] ∧ ∀ c ∈ pid, IsAsciiAlnum c

/-- An Amazon Music playlist URL in the words of the specification: an
identifier, one or more of `[A-Za-z0-9-]`, following `music.amazon.<tld>/playlists/`
or `music.amazon.<tld>/user-playlists/`, the top-level domain being one or more
lower-case letters and dots. -/
def AmazonPlaylistUrl (url : Str) : Prop :=
  ∃ pre tld kind pid rest : Str,
    url = pre ++ "music.amazon.".toList ++ tld ++ '/' :: kind ++ '/' :: pid ++ rest ∧
    tld ≠ [] ∧ (∀ c ∈ tld, ('a' ≤ c ∧ c ≤ 'z') ∨ c = '.') ∧
    (kind = "playlists".toList ∨ kind = "user-playlists".toList) ∧
    pid ≠ [] ∧ ∀ c ∈ pid, IsAsciiAlnum c ∨ c = '-'

/-- The number a string of decimal digits denotes. -/
def decimalValue (s : Str) : Nat :=
  s.foldl (fun a c => a * 10 + (c.toNat - 48)) 0

/-- Where multer stores a part of an upload to the profile `id`:
`uploads/<id>/<storage filename>`. -/
def tempPath (env : Env) (id : Str) (f : UploadedFile) : Path :=
  UPLOADS_DIR env ++ [id, storageName f.nameClock f.originalname]

/-- The entry of `req.files` for a part of an upload to the profile `id`. -/
def storedOf (env : Env) (id : Str) (f : UploadedFile) : StoredFile :=
  ⟨f, storageName f.nameClock f.originalname, tempPath env id f⟩

/-- The document after the loop of `/api/upload` has recorded the parts `files`. -/
def recordAll (id : Str) (doc : Profile) (files : List StoredFile) : Profile :=
  files.foldl
    (fun acc f =>
      pushRecord acc (subdirOf f.part.mimetype f.part.originalname)
        (recordOf id (subdirOf f.part.mimetype f.part.originalname) f))
    doc

/-- The file system after multer has stored the parts of an upload to `id`: for
every part the directory `uploads/<id>` is made and the part is written. -/
def multerFS (env : Env) (id : Str) (fs : FS) (files : List UploadedFile) : FS :=
  files.foldl
    (fun acc f => (acc.withDirs (UPLOADS_DIR env ++ [id])).write (tempPath env id f) f.content) fs

/-- The guard of line 252 for an existing id: the URL or the passcode is absent or empty. -/
def AddPlaylistReq.missing (r : AddPlaylistReq) : Bool :=
  !truthy r.playlistUrl || !truthy r.passcode

/-- The guard of line 275 for an existing id: the playlist id or the passcode is
absent or empty. -/
def DeletePlaylistReq.missing (r : DeletePlaylistReq) : Bool :=
  !truthy r.playlistId || !truthy r.passcode

/-- The example store after a second profile, `bob`, is created with the passcode `pb`. -/
def exampleStore2 (sha : Str → Str) : FS :=
  (createProfile (exampleEnv sha) (exampleStore sha)
    ⟨some "bob".toList, none, some "pb".toList, none⟩).2

/-- The document that create-profile stores for the id `bob` and the passcode `pb`. -/
def exampleDoc2 (sha : Str → Str) : Profile :=
  { id := "bob".toList, name := [], bio := [], photo := [], story := [], quote := [],
    passHash := sha "pb".toList, photos := [], audios := [], videos := [], messages := [],
    playlists := [] }

/-- No two records of one media sequence of the document share a storage filename. -/
def UniqueNames (d : Profile) : Prop :=
  (d.photos.map (fun a => a.name)).Nodup ∧ (d.audios.map (fun a => a.name)).Nodup ∧
    (d.videos.map (fun a => a.name)).Nodup

/-- The part `a.png` of type `image/png` whose storage filename is made at the clock
reading `t`. -/
def examplePart (t : Nat) : UploadedFile :=
  ⟨"a.png".toList, some "image/png".toList, .other "bytes".toList, t, t⟩

/-- The record that an upload of `examplePart t` to the profile `abc` pushes. -/
def exampleRecord (t : Nat) : MediaAsset :=
  { name := storageName t "a.png".toList, displayName := "a.png".toList,
    url := "/uploads/abc/photos/".toList ++ storageName t "a.png".toList, ts := t }

/-- The media sequence of a document that a category names. -/
def mediaSeq (d : Profile) (type : Str) : List MediaAsset :=
  if type = "photos".toList then d.photos
  else if type = "audios".toList then d.audios
  else if type = "videos".toList then d.videos
  else []

/-- The MIME type is absent, empty or starts with none of `image/`, `audio/`, `video/`. -/
def NoMediaMime (m : Option Str) : Prop :=
  truthy m = false ∨
    ("image/".toList.isPrefixOf (orEmpty m) = false ∧ "audio/".toList.isPrefixOf (orEmpty m) = false ∧
      "video/".toList.isPrefixOf (orEmpty m) = false)

/-- The file system that multer's disk storage leaves. -/
def MulterResult.fs : MulterResult → FS
  | .stored fs _ => fs
  | .failed fs => fs
  | .exit fs => fs

/-! # Theorems -/

/-! ## Paths of well-formed names -/

theorem splitSlash_ne_nil (s : Str) : splitSlash s ≠ [] := by
  induction s with
  | nil => simp [splitSlash]
  | cons c cs ih =>
    unfold splitSlash
    split
    · simp
    · split <;> simp

theorem splitSlash_of_not_mem (s : Str) (h : '/' ∉ s) : splitSlash s = [s] := by
  induction s with
  | nil => rfl
  | cons c cs ih =>
    have hc : c ≠ '/' := fun e => h (by simp [e])
    have hcs : '/' ∉ cs := fun e => h (by simp [e])
    simp [splitSlash, hc, ih hcs]

theorem normSegs_plain (segs stack : List Str) (h : ∀ s ∈ segs, PlainSeg s) :
    normSegs stack segs = stack.reverse ++ segs := by
  induction segs generalizing stack with
  | nil => simp [normSegs]
  | cons s rest ih =>
    obtain ⟨_, h1, h2, h3⟩ := h s (by simp)
    have hrest : ∀ t ∈ rest, PlainSeg t := fun t ht => h t (by simp [ht])
    simp [normSegs, h1, h2, h3, ih _ hrest]

theorem getLast?_ne_slash (s : Str) (h : '/' ∉ s) : (s.getLast? == some '/') = false := by
  cases hs : s.getLast? with
  | none => rfl
  | some c =>
    have hm : c ∈ s := List.mem_of_getLast?_eq_some hs
    have : c ≠ '/' := fun e => h (e ▸ hm)
    simp [this]

theorem pathJoin_plain (base : Path) (parts : List Str) (h : ∀ s ∈ parts, PlainSeg s) :
    pathJoin base parts = ⟨base ++ parts, false⟩ := by
  have hsplit : (parts.map splitSlash).flatten = parts := by
    induction parts with
    | nil => rfl
    | cons s rest ih =>
      have hs := splitSlash_of_not_mem s (h s (by simp)).1
      have hrest : ∀ t ∈ rest, PlainSeg t := fun t ht => h t (by simp [ht])
      simp [hs, ih hrest]
  have hfilter : parts.filter (fun s => !s.isEmpty) = parts := by
    apply List.filter_eq_self.2
    intro s hs
    have := (h s hs).2.1
    cases s <;> simp_all
  have hsegs : ∀ s ∈ parts, PlainSeg s := h
  unfold pathJoin
  rw [hsplit, hfilter, normSegs_plain _ _ h]
  simp only [List.reverse_reverse]
  congr 1
  cases hl : parts.getLast? with
  | none => rfl
  | some s =>
    have hm : s ∈ parts := List.mem_of_getLast?_eq_some hl
    simpa using getLast?_ne_slash s (h s hm).1

/-! ## Identifiers and stored profiles -/

theorem isAlphanum_iff (c : Char) :
    c.isAlphanum = true ↔
      ('A' ≤ c ∧ c ≤ 'Z') ∨ ('a' ≤ c ∧ c ≤ 'z') ∨ ('0' ≤ c ∧ c ≤ '9') := by
  simp only [Char.isAlphanum, Char.isAlpha, Char.isUpper, Char.isLower, Char.isDigit,
    Bool.or_eq_true, Bool.and_eq_true, decide_eq_true_eq, Char.le_def, or_assoc]
  rfl

theorem idChar_iff (c : Char) : idChar c = true ↔ InIdClass c := by
  unfold idChar InIdClass
  rw [Bool.or_eq_true, Bool.or_eq_true, isAlphanum_iff]
  simp [or_assoc]

theorem idPattern_iff (id : Str) : idPattern id = true ↔ ValidId id := by
  unfold idPattern ValidId
  simp only [Bool.and_eq_true, Bool.not_eq_true', List.all_eq_true, idChar_iff]
  constructor
  · rintro ⟨h1, h2⟩
    exact ⟨by cases id <;> simp_all, h2⟩
  · rintro ⟨h1, h2⟩
    exact ⟨by cases id <;> simp_all, h2⟩

theorem not_inIdClass_slash : ¬ InIdClass '/' := by unfold InIdClass; decide

theorem not_inIdClass_dot : ¬ InIdClass '.' := by unfold InIdClass; decide

theorem ValidId.plainSeg {id : Str} (h : ValidId id) : PlainSeg id := by
  refine ⟨fun hm => not_inIdClass_slash (h.2 _ hm), h.1, ?_, ?_⟩
  · rintro rfl
    exact not_inIdClass_dot (h.2 _ (by simp))
  · rintro rfl
    exact not_inIdClass_dot (h.2 _ (by simp))

theorem ValidId.plainSeg_json {id : Str} (h : ValidId id) : PlainSeg (id ++ ".json".toList) := by
  refine ⟨?_, ?_, ?_, ?_⟩
  · intro hm
    rcases List.mem_append.1 hm with hm | hm
    · exact not_inIdClass_slash (h.2 _ hm)
    · revert hm; decide
  · cases id <;> simp
  · intro e
    have := congrArg List.length e
    simp at this
  · intro e
    have := congrArg List.length e
    simp at this

theorem dataFile_valid (env : Env) {id : Str} (h : ValidId id) :
    dataFile env id = ⟨docPath env id, false⟩ := by
  unfold dataFile docPath
  exact pathJoin_plain _ _ (by
    intro s hs
    rw [List.mem_singleton] at hs
    subst hs
    exact h.plainSeg_json)

theorem docPath_injective (env : Env) {a b : Str} (h : docPath env a = docPath env b) : a = b := by
  unfold docPath at h
  have h1 := List.append_cancel_left h
  have h2 : a ++ ".json".toList = b ++ ".json".toList := by simpa using h1
  exact List.append_cancel_right h2

theorem truthy_some_of_valid {id : Str} (h : ValidId id) : truthy (some id) = true := by
  cases id with
  | nil => exact absurd rfl h.1
  | cons c cs => rfl

/-! ## Lookups in a file system after a write, a removal or a mkdir -/

@[simp] theorem FS.write_same (fs : FS) (p : Path) (f : File) :
    (fs.write p f) p = some (.file f) := by
  simp [FS.write]

theorem FS.write_other (fs : FS) {p q : Path} (f : File) (h : q ≠ p) :
    (fs.write p f) q = fs q := by
  simp [FS.write, h]

@[simp] theorem FS.remove_same (fs : FS) (p : Path) : (fs.remove p) p = none := by
  simp [FS.remove]

theorem FS.remove_other (fs : FS) {p q : Path} (h : q ≠ p) : (fs.remove p) q = fs q := by
  simp [FS.remove, h]

theorem FS.isFile_iff (fs : FS) (p : Path) : fs.isFile p = true ↔ ∃ f, fs p = some (.file f) := by
  unfold FS.isFile
  cases h : fs p with
  | none => simp
  | some n => cases n <;> simp

theorem FS.withDirs_prefix (fs : FS) {p q : Path} (h : q <+: p) : fs.withDirs p q = some .dir := by
  unfold FS.withDirs
  rw [if_pos (List.isPrefixOf_iff_prefix.2 h)]

theorem FS.withDirs_other (fs : FS) {p q : Path} (h : ¬ q <+: p) : fs.withDirs p q = fs q := by
  unfold FS.withDirs
  rw [if_neg (fun e => h (List.isPrefixOf_iff_prefix.1 e))]

theorem FS.withDirs_self (fs : FS) (p : Path) : fs.withDirs p p = some .dir :=
  fs.withDirs_prefix (List.prefix_refl p)

/-- A call of `mkdirSync` that returns gives the file system with the directories made. -/
theorem mkdirSync_some {fs fs1 : FS} {p : Path} (h : mkdirSync fs p = some fs1) :
    fs1 = fs.withDirs p := by
  unfold mkdirSync at h
  split at h
  · exact absurd h (by simp)
  · exact (Option.some.inj h).symm

/-- The call `mkdirSync` returns exactly when no regular file is at the path or above it. -/
theorem mkdirSync_eq_none_iff (fs : FS) (p : Path) :
    mkdirSync fs p = none ↔ ∃ q f, q <+: p ∧ fs q = some (.file f) := by
  unfold mkdirSync
  constructor
  · intro h
    split at h
    · rename_i hany
      rw [List.any_eq_true] at hany
      obtain ⟨q, hq, hf⟩ := hany
      obtain ⟨f, hf⟩ := (fs.isFile_iff q).1 hf
      exact ⟨q, f, (List.mem_inits _ _).1 hq, hf⟩
    · exact absurd h (by simp)
  · rintro ⟨q, f, hq, hf⟩
    rw [if_pos]
    rw [List.any_eq_true]
    exact ⟨q, (List.mem_inits _ _).2 hq, (fs.isFile_iff q).2 ⟨f, hf⟩⟩

theorem mkdirSync_of_no_file (fs : FS) (p : Path) (h : ∀ q f, q <+: p → fs q ≠ some (.file f)) :
    mkdirSync fs p = some (fs.withDirs p) := by
  cases hm : mkdirSync fs p with
  | none =>
    obtain ⟨q, f, hq, hf⟩ := (mkdirSync_eq_none_iff fs p).1 hm
    exact absurd hf (h q f hq)
  | some fs1 => rw [mkdirSync_some hm]

/-- A call of `mkdirSync` that returns leaves every regular file where it is. -/
theorem mkdirSync_keeps_file {fs fs1 : FS} {p : Path} (h : mkdirSync fs p = some fs1) (q : Path)
    (f : File) : fs1 q = some (.file f) ↔ fs q = some (.file f) := by
  have hne : mkdirSync fs p ≠ none := by rw [h]; simp
  rw [mkdirSync_some h]
  by_cases hq : q <+: p
  · rw [fs.withDirs_prefix hq]
    constructor
    · intro e; simp at e
    · intro e
      exact absurd ((mkdirSync_eq_none_iff fs p).2 ⟨q, f, hq, e⟩) hne
  · rw [fs.withDirs_other hq]

theorem HasProfile.existsSync {env : Env} {fs : FS} {id : Str} {d : Profile}
    (h : HasProfile env fs id d) : existsSync fs (dataFile env id) = true := by
  rw [dataFile_valid env h.1]
  simp [MemoryCode.existsSync, h.2]

theorem HasProfile.readJson {env : Env} {fs : FS} {id : Str} {d : Profile}
    (h : HasProfile env fs id d) : readJson fs (dataFile env id) = some d := by
  rw [dataFile_valid env h.1]
  simp [MemoryCode.readJson, h.2]

theorem writeJson_dataFile (env : Env) (fs : FS) {id : Str} (h : ValidId id) (d : Profile) :
    writeJson fs (dataFile env id) d = fs.write (docPath env id) (.doc d) := by
  rw [dataFile_valid env h]
  rfl

/-! ## `POST /api/create-profile` -/

theorem existsSync_plain (fs : FS) (p : Path) : existsSync fs ⟨p, false⟩ = (fs p).isSome := by
  unfold existsSync
  cases h : fs p with
  | none => rfl
  | some n => cases n <;> rfl

theorem audiosDir_valid (env : Env) {id : Str} (hv : ValidId id) :
    pathJoin (UPLOADS_DIR env) [id, "audios".toList] =
      ⟨UPLOADS_DIR env ++ [id, "audios".toList], false⟩ := by
  apply pathJoin_plain
  intro s hs
  simp only [List.mem_cons, List.mem_singleton, List.not_mem_nil, or_false] at hs
  rcases hs with rfl | rfl
  · exact hv.plainSeg
  · unfold PlainSeg; decide

theorem createProfile_invalid (env : Env) (fs : FS) (r : CreateReq)
    (h : ¬ ∃ id, r.id = some id ∧ ValidId id) :
    createProfile env fs r = (⟨400, .text "Invalid id"⟩, fs) := by
  have hc : (!truthy r.id || !idPattern (orEmpty r.id)) = true := by
    cases hid : r.id with
    | none => simp [truthy]
    | some id =>
      have hv : ¬ ValidId id := fun hv => h ⟨id, hid, hv⟩
      have : idPattern id = false := by
        rw [← Bool.not_eq_true, idPattern_iff]; exact hv
      simp [orEmpty, this]
  simp [createProfile, hc]

/-- The document that create-profile writes. -/
theorem createProfile_valid (env : Env) (fs : FS) (r : CreateReq) {id : Str}
    (hid : r.id = some id) (hv : ValidId id) :
    createProfile env fs r =
      if (fs (docPath env id)).isSome then (⟨409, .text "Profile exists"⟩, fs)
      else
        match mkdirSync fs (UPLOADS_DIR env ++ [id, "audios".toList]) with
        | none => (thrown, fs)
        | some fs1 =>
          (⟨201, .text "Created"⟩,
            fs1.write (docPath env id)
              (.doc
                { id := id, name := orEmpty r.name, bio := orEmpty r.bio, photo := [],
                  story := [], quote := [], passHash := hashPass env (orEmpty r.passcode),
                  photos := [], audios := [], videos := [], messages := [], playlists := [] })) := by
  have hc : (!truthy r.id || !idPattern (orEmpty r.id)) = false := by
    simp [hid, orEmpty, truthy_some_of_valid hv, (idPattern_iff id).2 hv]
  have ho : orEmpty r.id = id := by rw [hid]; rfl
  unfold createProfile
  rw [hc]
  simp only [Bool.false_eq_true, if_false, ho, dataFile_valid env hv, existsSync_plain,
    audiosDir_valid env hv, writeJson]

/-- The contract of create-profile on a file system with directories. The request
is answered 400 exactly when the id is absent, empty or does not fully match
`[A-Za-z0-9_-]+`; otherwise 409 exactly when something, a regular file or a
directory, is at `data/<id>.json`; otherwise 500 exactly when the directory
`uploads/<id>/audios` cannot be made. In these three cases the file system is
unchanged. Otherwise the request is answered 201: every regular file stays,
the document of the id is stored with empty photos, audios, videos, messages
and playlists and `passHash = hash(passcode)`, and a second create of the id
answers 409. -/
theorem createProfile_cases (env : Env) (fs : FS) (r : CreateReq) :
    ((createProfile env fs r).1.status = 400 ↔
      (r.id = none ∨ r.id = some [] ∨ ∃ id, r.id = some id ∧ ¬ ValidId id)) ∧
    ((createProfile env fs r).1.status = 409 ↔
      ∃ id, r.id = some id ∧ ValidId id ∧ (fs (docPath env id)).isSome = true) ∧
    ((createProfile env fs r).1.status = 500 ↔
      ∃ id, r.id = some id ∧ ValidId id ∧ fs (docPath env id) = none ∧
        mkdirSync fs (UPLOADS_DIR env ++ [id, "audios".toList]) = none) ∧
    ((createProfile env fs r).1.status ≠ 201 → (createProfile env fs r).2 = fs) ∧
    ((createProfile env fs r).1.status ≠ 400 → (createProfile env fs r).1.status ≠ 409 →
      (createProfile env fs r).1.status ≠ 500 →
      ∃ id d, r.id = some id ∧ (createProfile env fs r).1 = ⟨201, .text "Created"⟩ ∧
        (∀ q f, q ≠ docPath env id →
          ((createProfile env fs r).2 q = some (.file f) ↔ fs q = some (.file f))) ∧
        (createProfile env fs r).2 (docPath env id) = some (.file (.doc d)) ∧
        d.id = id ∧ d.photos = [] ∧ d.audios = [] ∧ d.videos = [] ∧ d.messages = [] ∧
        d.playlists = [] ∧ d.passHash = hashPass env (orEmpty r.passcode) ∧
        ∀ r2 : CreateReq, r2.id = some id →
          createProfile env (createProfile env fs r).2 r2 =
            (⟨409, .text "Profile exists"⟩, (createProfile env fs r).2)) := by
  by_cases hval : ∃ id, r.id = some id ∧ ValidId id
  · obtain ⟨id, hid, hv⟩ := hval
    have hform := createProfile_valid env fs r hid hv
    have hnot : ¬ (r.id = none ∨ r.id = some [] ∨ ∃ id, r.id = some id ∧ ¬ ValidId id) := by
      rintro (h | h | ⟨j, hj, hnv⟩)
      · simp [hid] at h
      · rw [hid] at h
        exact hv.1 (Option.some.inj h)
      · rw [hid] at hj
        exact hnv (Option.some.inj hj ▸ hv)
    have huniq : ∀ {P : Str → Prop}, (∃ j, r.id = some j ∧ ValidId j ∧ P j) ↔ P id := by
      intro P
      constructor
      · rintro ⟨j, hj, _, hp⟩
        rw [hid] at hj
        exact Option.some.inj hj ▸ hp
      · intro hp
        exact ⟨id, hid, hv, hp⟩
    by_cases hex : (fs (docPath env id)).isSome = true
    · rw [if_pos hex] at hform
      have hnn : fs (docPath env id) ≠ none := by
        intro e; rw [e] at hex; simp at hex
      rw [hform, huniq, huniq]
      refine ⟨by simpa using hnot, by simpa using hex, ?_, fun _ => rfl, fun _ h => absurd rfl h⟩
      constructor
      · intro h; simp at h
      · intro h; exact absurd h.1 hnn
    · rw [if_neg hex] at hform
      have hnone : fs (docPath env id) = none := by
        cases h : fs (docPath env id) with
        | none => rfl
        | some n => rw [h] at hex; simp at hex
      cases hmk : mkdirSync fs (UPLOADS_DIR env ++ [id, "audios".toList]) with
      | none =>
        rw [hmk] at hform
        rw [hform, huniq, huniq]
        refine ⟨by simpa [thrown] using hnot, by simpa [thrown] using hex, ?_, fun _ => rfl,
          fun _ _ h => absurd rfl h⟩
        simp only [thrown, hnone, true_and]
        exact ⟨fun _ => hmk, fun _ => trivial⟩
      | some fs1 =>
        rw [hmk] at hform
        have hsecond : ∀ r2 : CreateReq, r2.id = some id →
            createProfile env (createProfile env fs r).2 r2 =
              (⟨409, .text "Profile exists"⟩, (createProfile env fs r).2) := by
          intro r2 h2
          rw [createProfile_valid env _ r2 h2 hv, hform]
          simp
        rw [huniq, huniq]
        refine ⟨?_, ?_, ?_, ?_, ?_⟩
        · rw [hform]
          simpa using hnot
        · rw [hform]
          simpa using hex
        · rw [hform]
          constructor
          · intro h; simp at h
          · intro h
            exact absurd (hmk.symm.trans h.2) (by simp)
        · rw [hform]
          intro h
          exact absurd rfl h
        · intro _ _ _
          refine ⟨id, _, hid, by rw [hform], ?_, by rw [hform]; exact FS.write_same _ _ _,
            rfl, rfl, rfl, rfl, rfl, rfl, rfl, hsecond⟩
          intro q f hq
          rw [hform]
          show (fs1.write _ _) q = _ ↔ _
          rw [FS.write_other _ _ hq]
          exact mkdirSync_keeps_file hmk q f
  · have hform := createProfile_invalid env fs r hval
    rw [hform]
    have hyes : r.id = none ∨ r.id = some [] ∨ ∃ id, r.id = some id ∧ ¬ ValidId id := by
      cases hid : r.id with
      | none => exact Or.inl rfl
      | some id => exact Or.inr (Or.inr ⟨id, rfl, fun hv => hval ⟨id, hid, hv⟩⟩)
    refine ⟨by simpa using hyes, ?_, ?_, fun _ => rfl, fun h => absurd rfl h⟩
    · constructor
      · intro h; simp at h
      · rintro ⟨j, hj, hv, _⟩
        exact absurd ⟨j, hj, hv⟩ hval
    · constructor
      · intro h; simp at h
      · rintro ⟨j, hj, hv, _⟩
        exact absurd ⟨j, hj, hv⟩ hval

/-! ## The handlers on a stored profile -/

theorem orEmpty_some {α : Type} (s : List α) : orEmpty (some s) = s := rfl

theorem editProfile_stored {env : Env} {fs : FS} {id : Str} {d : Profile}
    (h : HasProfile env fs id d) (r : EditReq) :
    editProfile env fs (some id) r =
      if hashPass env (orEmpty r.passcode) = d.passHash then
        (⟨200, .text "OK"⟩, fs.write (docPath env id) (.doc (applyEdit d r)))
      else (⟨403, .text "Bad passcode"⟩, fs) := by
  unfold editProfile
  simp only [truthy_some_of_valid h.1, orEmpty_some, h.existsSync, h.readJson,
    writeJson_dataFile env fs h.1]
  by_cases hp : hashPass env (orEmpty r.passcode) = d.passHash <;> simp [hp]

theorem login_stored {env : Env} {fs : FS} {id : Str} {d : Profile}
    (h : HasProfile env fs id d) (pass : Str) :
    login env fs (some id) pass =
      if adminOrPass env pass d = true then ⟨200, .text "OK"⟩ else ⟨403, .text "Bad passcode"⟩ := by
  unfold login
  simp only [truthy_some_of_valid h.1, orEmpty_some, h.existsSync, h.readJson]
  by_cases hp : adminOrPass env pass d = true
  · have hp2 := hp
    unfold adminOrPass at hp2
    simp [hp, hp2]
  · have hp2 := hp
    unfold adminOrPass at hp2
    simp [hp, hp2]

theorem deleteFile_missing (env : Env) (fs : FS) (id : Str) (r : DeleteReq)
    (hid : truthy (some id) = true) (hm : r.missing = true) :
    deleteFile env fs (some id) r = (⟨400, .text "Missing type, filename, or passcode"⟩, fs) := by
  unfold DeleteReq.missing at hm
  unfold deleteFile
  simp [hid, hm]

theorem deleteFile_stored {env : Env} {fs : FS} {id : Str} {d : Profile}
    (h : HasProfile env fs id d) (r : DeleteReq) (hm : r.missing = false) :
    deleteFile env fs (some id) r =
      if hashPass env (orEmpty r.passcode) = d.passHash then
        if existsSync fs (pathJoin (UPLOADS_DIR env) [id, orEmpty r.type, orEmpty r.filename])
            = true then
          if fs.isFile
              (pathJoin (UPLOADS_DIR env) [id, orEmpty r.type, orEmpty r.filename]).segs = false then
            (⟨500, .text "Delete failed"⟩, fs)
          else if env.unlinkThrows
              (pathJoin (UPLOADS_DIR env) [id, orEmpty r.type, orEmpty r.filename]).segs = true then
            (⟨500, .text "Delete failed"⟩, fs)
          else
            (⟨200, .text "Deleted"⟩,
              (fs.remove
                (pathJoin (UPLOADS_DIR env) [id, orEmpty r.type, orEmpty r.filename]).segs).write
                (docPath env id)
                (.doc (removeRecord d (orEmpty r.type) (orEmpty r.filename))))
        else (⟨404, .text "File not found"⟩, fs)
      else (⟨403, .text "Bad passcode"⟩, fs) := by
  unfold DeleteReq.missing at hm
  unfold deleteFile
  simp only [truthy_some_of_valid h.1, orEmpty_some, h.existsSync, h.readJson, hm,
    writeJson_dataFile env _ h.1]
  by_cases hp : hashPass env (orEmpty r.passcode) = d.passHash
  · by_cases he : existsSync fs
        (pathJoin (UPLOADS_DIR env) [id, orEmpty r.type, orEmpty r.filename]) = true
    · by_cases hf : fs.isFile
          (pathJoin (UPLOADS_DIR env) [id, orEmpty r.type, orEmpty r.filename]).segs = false
      · simp [hp, he, hf]
      · by_cases hu : env.unlinkThrows
            (pathJoin (UPLOADS_DIR env) [id, orEmpty r.type, orEmpty r.filename]).segs = true
        · simp [hp, he, hf, hu]
        · simp [hp, he, hf, hu]
    · simp [hp, he]
  · simp [hp]

theorem addMessage_stored {env : Env} {fs : FS} {id : Str} {d : Profile}
    (h : HasProfile env fs id d) (r : MessageReq) :
    addMessage env fs (some id) r =
      if truthy r.message = true then
        (⟨200, .text "Message added"⟩,
          fs.write (docPath env id) (.doc { d with messages := d.messages ++ [newMessage r] }))
      else (⟨400, .text "Message required"⟩, fs) := by
  unfold addMessage
  simp only [truthy_some_of_valid h.1, orEmpty_some, h.existsSync, h.readJson,
    writeJson_dataFile env fs h.1]
  by_cases hm : truthy r.message = true <;> simp [hm]

theorem getMessages_stored {env : Env} {fs : FS} {id : Str} {d : Profile}
    (h : HasProfile env fs id d) :
    getMessages env fs (some id) = ⟨200, .messages (sortMessages d.messages)⟩ := by
  unfold getMessages
  simp [truthy_some_of_valid h.1, orEmpty_some, h.existsSync, h.readJson]

theorem getProfile_stored {env : Env} {fs : FS} {id : Str} {d : Profile}
    (h : HasProfile env fs id d) :
    getProfile env fs (some id) =
      ⟨200, .object (d.toObject.filter (fun kv => kv.1 != "passHash"))⟩ := by
  unfold getProfile
  simp [truthy_some_of_valid h.1, orEmpty_some, h.existsSync, h.readJson]

theorem addPlaylist_missing (env : Env) (fs : FS) (id : Option Str) (r : AddPlaylistReq)
    (hm : (!truthy id || !truthy r.playlistUrl || !truthy r.passcode) = true) :
    addPlaylist env fs id r = (⟨400, .text "Missing fields"⟩, fs) := by
  unfold addPlaylist
  simp [hm]

theorem addPlaylist_stored {env : Env} {fs : FS} {id : Str} {d : Profile}
    (h : HasProfile env fs id d) (r : AddPlaylistReq)
    (hu : truthy r.playlistUrl = true) (hq : truthy r.passcode = true) :
    addPlaylist env fs (some id) r =
      if hashPass env (orEmpty r.passcode) = d.passHash then
        match extractPlaylistInfo (orEmpty r.playlistUrl) with
        | none => (⟨400, .text "Invalid playlist URL"⟩, fs)
        | some info =>
          (⟨200, .text "Playlist added"⟩,
            fs.write (docPath env id) (.doc { d with
              playlists := d.playlists ++ [⟨info.platform, info.id, info.url, r.now⟩] }))
      else (⟨403, .text "Bad passcode"⟩, fs) := by
  unfold addPlaylist
  simp only [truthy_some_of_valid h.1, orEmpty_some, h.existsSync, h.readJson, hu, hq,
    writeJson_dataFile env fs h.1]
  by_cases hp : hashPass env (orEmpty r.passcode) = d.passHash
  · simp only [hp, if_pos]
    cases extractPlaylistInfo (orEmpty r.playlistUrl) <;> simp
  · simp [hp]

theorem deletePlaylist_missing (env : Env) (fs : FS) (id : Option Str) (r : DeletePlaylistReq)
    (hm : (!truthy id || !truthy r.playlistId || !truthy r.passcode) = true) :
    deletePlaylist env fs id r = (⟨400, .text "Missing fields"⟩, fs) := by
  unfold deletePlaylist
  simp [hm]

theorem deletePlaylist_stored {env : Env} {fs : FS} {id : Str} {d : Profile}
    (h : HasProfile env fs id d) (r : DeletePlaylistReq)
    (hu : truthy r.playlistId = true) (hq : truthy r.passcode = true) :
    deletePlaylist env fs (some id) r =
      if hashPass env (orEmpty r.passcode) = d.passHash then
        (⟨200, .text "Playlist deleted"⟩,
          fs.write (docPath env id) (.doc { d with
            playlists := d.playlists.filter (fun p => p.id != orEmpty r.playlistId) }))
      else (⟨403, .text "Bad passcode"⟩, fs) := by
  unfold deletePlaylist
  simp only [truthy_some_of_valid h.1, orEmpty_some, h.existsSync, h.readJson, hu, hq,
    writeJson_dataFile env fs h.1]
  by_cases hp : hashPass env (orEmpty r.passcode) = d.passHash <;> simp [hp]


/-! ## The example store -/

theorem validId_abc : ValidId "abc".toList := (idPattern_iff _).1 (by decide)

theorem exampleStore_eq (sha : Str → Str) :
    exampleStore sha =
      ((startStore (exampleEnv sha)).withDirs
          (UPLOADS_DIR (exampleEnv sha) ++ ["abc".toList, "audios".toList])).write
        (docPath (exampleEnv sha) "abc".toList) (.doc (exampleDoc sha)) := by
  unfold exampleStore
  rw [createProfile_valid (exampleEnv sha) _ _ rfl validId_abc]
  rfl

theorem exampleStore_hasProfile (sha : Str → Str) :
    HasProfile (exampleEnv sha) (exampleStore sha) "abc".toList (exampleDoc sha) := by
  refine ⟨validId_abc, ?_⟩
  rw [exampleStore_eq]
  exact FS.write_same _ _ _

/-! ## A directory at the path of a document (C3) -/

/-- C3 (code): create-profile answers 409 `Profile exists` whenever anything is at
`data/<id>.json`, also a directory, in which no document for the id is stored:
the store is unchanged, `GET /api/profile` for the id answers 500, and every
later create of the id is answered 409 again. Such a directory is made by the
`destination` callback of upload for the id `../data/<id>.json`, which upload,
unlike create-profile, does not check against `[A-Za-z0-9_-]+`. -/
theorem createProfile_directory_at_document (env : Env) (fs : FS) (id : Str) (r : CreateReq)
    (hid : r.id = some id) (hv : ValidId id) (hdir : fs (docPath env id) = some .dir) :
    createProfile env fs r = (⟨409, .text "Profile exists"⟩, fs) ∧
    (∀ d, fs (docPath env id) ≠ some (.file (.doc d))) ∧
    getProfile env fs (some id) = thrown := by
  refine ⟨?_, ?_, ?_⟩
  · rw [createProfile_valid env fs r hid hv, hdir]
    rfl
  · intro d e
    rw [hdir] at e
    exact absurd e (by simp)
  · unfold getProfile
    simp only [truthy_some_of_valid hv, orEmpty_some, dataFile_valid env hv, existsSync_plain,
      readJson, hdir]
    rfl

/-- The instance of `createProfile_directory_at_document` on the server that has just
started: `POST /api/upload?id=../data/abc.json` with one file part is answered
404 and leaves a directory at `data/abc.json`, after which create-profile for
`abc` is answered 409 although no profile `abc` was ever created. -/
theorem createProfile_directory_at_document_witness :
    (upload (exampleEnv id) (startStore (exampleEnv id)) (some "../data/abc.json".toList)
      ⟨none, [examplePart 5], false⟩).1 = ⟨404, .text "Profile not found"⟩ ∧
    (upload (exampleEnv id) (startStore (exampleEnv id)) (some "../data/abc.json".toList)
      ⟨none, [examplePart 5], false⟩).2 (docPath (exampleEnv id) "abc".toList) = some .dir ∧
    (createProfile (exampleEnv id)
      (upload (exampleEnv id) (startStore (exampleEnv id)) (some "../data/abc.json".toList)
        ⟨none, [examplePart 5], false⟩).2
      ⟨some "abc".toList, none, some "secret".toList, none⟩).1 =
      ⟨409, .text "Profile exists"⟩ :=
  ⟨by decide, by decide,
    congrArg Prod.fst
      (createProfile_directory_at_document (exampleEnv id) _ "abc".toList
        ⟨some "abc".toList, none, some "secret".toList, none⟩ rfl validId_abc (by decide)).1⟩

/-! ## `POST /api/add-message` and `GET /api/messages` (C8) -/

theorem utf16_bmp (s : Str) (h : ∀ c ∈ s, c.toNat < 0x10000) : utf16 s = s.map Char.toNat := by
  induction s with
  | nil => rfl
  | cons c cs ih =>
    have hc : c.toNat < 0x10000 := h c (by simp)
    have hcs : ∀ x ∈ cs, x.toNat < 0x10000 := fun x hx => h x (by simp [hx])
    have e : utf16 (c :: cs) = utf16Char c ++ utf16 cs := by simp [utf16]
    rw [e, ih hcs]
    simp [utf16Char, hc]

/-- On a string of characters below `U+10000` a cut after `n` code units is a cut after
`n` characters. -/
theorem substring0_bmp (s : Str) (n : Nat) (h : ∀ c ∈ s, c.toNat < 0x10000) :
    substring0 (utf16 s) n = utf16 (s.take n) := by
  have h2 : ∀ c ∈ s.take n, c.toNat < 0x10000 := fun c hc => h c (List.mem_of_mem_take hc)
  rw [utf16_bmp s h, utf16_bmp _ h2, substring0, List.map_take]

/-- C8: on an existing profile, add-message (no passcode asked) answers 400 and
leaves the store as it is when the text is absent or empty; otherwise the stored
messages become the previous ones followed by one new message whose text is the
first min(500, length) characters of the text and whose name is the first
min(100, length) characters of the author name, or `Anonymous` when that is
absent or empty, every other field and file being unchanged; list-messages then
returns a permutation of the stored messages ordered by `ts` descending, and, as a
function that returns a response only, writes nothing. A character is a UTF-16
code unit, the unit in which `length` and `substring` count; for a text or a
name of characters below `U+10000` these are its Unicode characters. -/
theorem addMessage_then_listMessages (env : Env) (fs : FS) (id : Str) (d : Profile)
    (r : MessageReq) (h : HasProfile env fs id d) :
    (truthy r.message = false →
      addMessage env fs (some id) r = (⟨400, .text "Message required"⟩, fs)) ∧
    (truthy r.message = true →
      ∃ m : Message,
        addMessage env fs (some id) r =
          (⟨200, .text "Message added"⟩,
            fs.write (docPath env id) (.doc { d with messages := d.messages ++ [m] })) ∧
        m.text = (orEmpty r.message).take 500 ∧
        m.text.length = min 500 (orEmpty r.message).length ∧
        (truthy r.name = true →
          m.name = (orEmpty r.name).take 100 ∧ m.name.length = min 100 (orEmpty r.name).length) ∧
        (truthy r.name = false → m.name = utf16 "Anonymous".toList) ∧
        (∀ s : Str, r.message = some (utf16 s) → (∀ c ∈ s, c.toNat < 0x10000) →
          m.text = utf16 (s.take 500)) ∧
        (∀ s : Str, truthy r.name = true → r.name = some (utf16 s) →
          (∀ c ∈ s, c.toNat < 0x10000) → m.name = utf16 (s.take 100)) ∧
        m.ts = r.now ∧
        HasProfile env (addMessage env fs (some id) r).2 id
          { d with messages := d.messages ++ [m] } ∧
        ∃ l : List Message,
          getMessages env (addMessage env fs (some id) r).2 (some id) = ⟨200, .messages l⟩ ∧
          l.Perm (d.messages ++ [m]) ∧
          l.Sorted (fun a b => b.ts ≤ a.ts)) := by
  have hform := addMessage_stored h r
  constructor
  · intro hm
    rw [hform]
    simp [hm]
  · intro hm
    rw [if_pos hm] at hform
    have hstored : HasProfile env (addMessage env fs (some id) r).2 id
        { d with messages := d.messages ++ [newMessage r] } := by
      rw [hform]
      exact ⟨h.1, FS.write_same _ _ _⟩
    refine ⟨newMessage r, hform, rfl, ?_, ?_, ?_, ?_, ?_, rfl, hstored, ?_⟩
    · simp [newMessage, substring0]
    · intro hn
      simp [newMessage, substring0, orDefault, hn]
    · intro hn
      have hd : orDefault r.name (utf16 "Anonymous".toList) = utf16 "Anonymous".toList := by
        simp [orDefault, hn]
      show substring0 (orDefault r.name (utf16 "Anonymous".toList)) 100 = _
      rw [hd]
      decide
    · intro s hs hb
      show substring0 (orEmpty r.message) 500 = _
      rw [hs, orEmpty_some]
      exact substring0_bmp s 500 hb
    · intro s hn hs hb
      have hd : orDefault r.name (utf16 "Anonymous".toList) = utf16 s := by
        unfold orDefault
        rw [if_pos hn, hs]
        rfl
      show substring0 (orDefault r.name (utf16 "Anonymous".toList)) 100 = _
      rw [hd]
      exact substring0_bmp s 100 hb
    · refine ⟨_, getMessages_stored hstored, ?_, ?_⟩
      · exact List.perm_insertionSort _ _
      · exact List.sorted_insertionSort newerFirst _

theorem take_pairs (a b : Nat) (k j : Nat) :
    List.take (2 * k) (List.replicate (k + j) [a, b]).flatten =
      (List.replicate k [a, b]).flatten := by
  induction k with
  | zero => simp
  | succ k ih =>
    have e1 : k + 1 + j = (k + j) + 1 := by omega
    have e2 : 2 * (k + 1) = (2 * k) + 1 + 1 := by omega
    rw [e1, e2, List.replicate_succ, List.replicate_succ, List.flatten_cons, List.flatten_cons]
    show a :: b :: List.take (2 * k) (List.replicate (k + j) [a, b]).flatten =
      a :: b :: (List.replicate k [a, b]).flatten
    rw [ih]

/-- The instance of `addMessage_then_listMessages` on the example store: of a text
of 300 characters outside the Basic Multilingual Plane (600 code units, here
300 times the pair `D83D DE00`) the first 500 code units are stored, which are
250 characters. -/
theorem addMessage_then_listMessages_witness :
    HasProfile (exampleEnv id) (exampleStore id) "abc".toList (exampleDoc id) ∧
    ∃ m : Message,
      (addMessage (exampleEnv id) (exampleStore id) (some "abc".toList)
        ⟨none, some (List.replicate 300 [0xD83D, 0xDE00]).flatten, 7⟩).1.status = 200 ∧
      m.text = (List.replicate 250 [0xD83D, 0xDE00]).flatten ∧
      m.name = utf16 "Anonymous".toList ∧
      HasProfile (exampleEnv id) (addMessage (exampleEnv id) (exampleStore id)
        (some "abc".toList) ⟨none, some (List.replicate 300 [0xD83D, 0xDE00]).flatten, 7⟩).2
        "abc".toList { exampleDoc id with messages := [m] } := by
  refine ⟨exampleStore_hasProfile id, ?_⟩
  obtain ⟨m, h1, h2, _, _, h5, _, _, _, h7, _⟩ :=
    (addMessage_then_listMessages (exampleEnv id) (exampleStore id) "abc".toList (exampleDoc id)
      ⟨none, some (List.replicate 300 [0xD83D, 0xDE00]).flatten, 7⟩
      (exampleStore_hasProfile id)).2 (by decide)
  refine ⟨m, by rw [h1], ?_, h5 rfl, h7⟩
  rw [h2]
  exact take_pairs 0xD83D 0xDE00 250 50

/-! ## `extractPlaylistInfo` (C7) -/

theorem firstMatch_some {α : Type} (m : Str → Option α) (url : Str) (g : α)
    (h : firstMatch m url = some g) : ∃ pre s, url = pre ++ s ∧ m s = some g := by
  induction url with
  | nil => exact ⟨[], [], rfl, h⟩
  | cons c cs ih =>
    unfold firstMatch at h
    cases hm : m (c :: cs) with
    | some r =>
      rw [hm] at h
      exact ⟨[], c :: cs, rfl, by rw [hm]; exact h⟩
    | none =>
      rw [hm] at h
      obtain ⟨pre, s, hs, hg⟩ := ih h
      exact ⟨c :: pre, s, by rw [hs]; rfl, hg⟩

theorem firstMatch_head {α : Type} (m : Str → Option α) (s : Str) (g : α)
    (h : m s = some g) : firstMatch m s = some g := by
  cases s with
  | nil => exact h
  | cons c cs =>
    unfold firstMatch
    rw [h]

theorem firstMatch_isSome {α : Type} (m : Str → Option α) (pre s : Str)
    (h : (m s).isSome = true) : (firstMatch m (pre ++ s)).isSome = true := by
  induction pre with
  | nil =>
    cases s with
    | nil => exact h
    | cons c cs =>
      show (firstMatch m (c :: cs)).isSome = true
      unfold firstMatch
      cases hm : m (c :: cs) with
      | some r => rfl
      | none => rw [hm] at h; exact absurd h (by simp)
  | cons c cs ih =>
    show (firstMatch m (c :: (cs ++ s))).isSome = true
    unfold firstMatch
    cases hm : m (c :: (cs ++ s)) with
    | some r => rfl
    | none => exact ih

theorem afterLit_some (lit s rest : Str) (h : afterLit lit s = some rest) : s = lit ++ rest := by
  unfold afterLit at h
  split at h
  · rename_i hp
    obtain ⟨t, ht⟩ := List.isPrefixOf_iff_prefix.1 hp
    have : rest = t := by
      have h' := Option.some.inj h
      rw [← h', ← ht]
      simp
    rw [this, ht]
  · exact absurd h (by simp)

theorem afterLit_append (lit rest : Str) : afterLit lit (lit ++ rest) = some rest := by
  unfold afterLit
  have : lit.isPrefixOf (lit ++ rest) = true := List.isPrefixOf_iff_prefix.2 ⟨rest, rfl⟩
  simp [this]

theorem takeWhile_run (p : Char → Bool) (xs ys : Str) (hx : ∀ c ∈ xs, p c = true)
    (hy : ∀ c, ys.head? = some c → p c = false) :
    (xs ++ ys).takeWhile p = xs ∧ (xs ++ ys).dropWhile p = ys := by
  induction xs with
  | nil =>
    cases ys with
    | nil => exact ⟨rfl, rfl⟩
    | cons y ys' =>
      have := hy y rfl
      simp [List.takeWhile, List.dropWhile, this]
  | cons x xs' ih =>
    have hx1 := hx x (by simp)
    have := ih (fun c hc => hx c (by simp [hc]))
    simp [List.takeWhile, List.dropWhile, hx1, this.1, this.2]

theorem takeWhile_ne_nil (p : Char → Bool) (xs ys : Str) (hne : xs ≠ [])
    (hx : ∀ c ∈ xs, p c = true) : ((xs ++ ys).takeWhile p).isEmpty = false := by
  cases xs with
  | nil => exact absurd rfl hne
  | cons x xs' =>
    have := hx x (by simp)
    simp [List.takeWhile, this]

theorem isLower_iff (c : Char) : c.isLower = true ↔ ('a' ≤ c ∧ c ≤ 'z') := by
  simp only [Char.isLower, Bool.and_eq_true, decide_eq_true_eq, Char.le_def]
  rfl

theorem tldChar_iff (c : Char) : tldChar c = true ↔ (('a' ≤ c ∧ c ≤ 'z') ∨ c = '.') := by
  unfold tldChar
  rw [Bool.or_eq_true, isLower_iff]
  simp

theorem amazonIdChar_iff (c : Char) : amazonIdChar c = true ↔ (IsAsciiAlnum c ∨ c = '-') := by
  unfold amazonIdChar IsAsciiAlnum
  rw [Bool.or_eq_true, isAlphanum_iff]
  simp

theorem spotifyAt_some (s g : Str) (h : spotifyAt s = some g) :
    ∃ rest, s = "spotify.com/playlist/".toList ++ g ++ rest ∧ g ≠ [] ∧
      ∀ c ∈ g, IsAsciiAlnum c := by
  unfold spotifyAt at h
  cases ha : afterLit "spotify.com/playlist/".toList s with
  | none => rw [ha] at h; exact absurd h (by simp)
  | some rest =>
    rw [ha] at h
    simp only at h
    split at h
    · exact absurd h (by simp)
    · rename_i hne
      have hg : g = rest.takeWhile Char.isAlphanum := (Option.some.inj h).symm
      refine ⟨rest.dropWhile Char.isAlphanum, ?_, ?_, ?_⟩
      · rw [afterLit_some _ _ _ ha, hg, List.append_assoc, List.takeWhile_append_dropWhile]
      · rw [hg]
        intro e
        rw [e] at hne
        exact hne rfl
      · intro c hc
        rw [hg] at hc
        exact (isAlphanum_iff c).1 (List.mem_takeWhile_imp hc)

theorem spotifyAt_isSome (pid rest : Str) (hne : pid ≠ []) (hp : ∀ c ∈ pid, IsAsciiAlnum c) :
    (spotifyAt ("spotify.com/playlist/".toList ++ (pid ++ rest))).isSome = true := by
  unfold spotifyAt
  rw [afterLit_append]
  simp only
  rw [takeWhile_ne_nil _ _ _ hne (fun c hc => (isAlphanum_iff c).2 (hp c hc))]
  rfl

theorem amazonAt_some (s g : Str) (h : amazonAt s = some g) :
    ∃ tld kind rest, s = "music.amazon.".toList ++ tld ++ '/' :: kind ++ '/' :: g ++ rest ∧
      tld ≠ [] ∧ (∀ c ∈ tld, ('a' ≤ c ∧ c ≤ 'z') ∨ c = '.') ∧
      (kind = "playlists".toList ∨ kind = "user-playlists".toList) ∧
      g ≠ [] ∧ ∀ c ∈ g, IsAsciiAlnum c ∨ c = '-' := by
  unfold amazonAt at h
  cases h1 : afterLit "music.amazon.".toList s with
  | none => rw [h1] at h; exact absurd h (by simp)
  | some rest =>
    rw [h1] at h
    simp only at h
    split at h
    · exact absurd h (by simp)
    · rename_i htld
      cases h2 : afterLit ['/'] (rest.dropWhile tldChar) with
      | none => rw [h2] at h; exact absurd h (by simp)
      | some rest2 =>
        rw [h2] at h
        simp only at h
        have hkind : ∀ kind rest3, afterLit kind rest2 = some rest3 →
            (kind = "playlists".toList ∨ kind = "user-playlists".toList) →
            (match afterLit ['/'] rest3 with
              | none => none
              | some rest4 =>
                if (rest4.takeWhile amazonIdChar).isEmpty = true then none
                else some (rest4.takeWhile amazonIdChar)) = some g →
            ∃ tld kind rest, s = "music.amazon.".toList ++ tld ++ '/' :: kind ++ '/' :: g ++ rest ∧
              tld ≠ [] ∧ (∀ c ∈ tld, ('a' ≤ c ∧ c ≤ 'z') ∨ c = '.') ∧
              (kind = "playlists".toList ∨ kind = "user-playlists".toList) ∧
              g ≠ [] ∧ ∀ c ∈ g, IsAsciiAlnum c ∨ c = '-' := by
          intro kind rest3 h3 hk h
          cases h4 : afterLit ['/'] rest3 with
          | none => rw [h4] at h; exact absurd h (by simp)
          | some rest4 =>
            rw [h4] at h
            simp only at h
            split at h
            · exact absurd h (by simp)
            · rename_i hne
              have hg : g = rest4.takeWhile amazonIdChar := (Option.some.inj h).symm
              refine ⟨rest.takeWhile tldChar, kind, rest4.dropWhile amazonIdChar, ?_, ?_, ?_, hk,
                ?_, ?_⟩
              · have e1 := afterLit_some _ _ _ h1
                have e2 := afterLit_some _ _ _ h2
                have e3 := afterLit_some _ _ _ h3
                have e4 := afterLit_some _ _ _ h4
                have e5 : rest4 = g ++ rest4.dropWhile amazonIdChar := by
                  rw [hg, List.takeWhile_append_dropWhile]
                have e6 : rest = rest.takeWhile tldChar ++ rest.dropWhile tldChar :=
                  (List.takeWhile_append_dropWhile _ _).symm
                conv_lhs => rw [e1, e6, e2, e3, e4, e5]
                simp
              · intro e
                rw [e] at htld
                exact htld rfl
              · intro c hc
                exact (tldChar_iff c).1 (List.mem_takeWhile_imp hc)
              · rw [hg]
                intro e
                rw [e] at hne
                exact hne rfl
              · intro c hc
                rw [hg] at hc
                exact (amazonIdChar_iff c).1 (List.mem_takeWhile_imp hc)
        cases h3 : afterLit "playlists".toList rest2 with
        | some rest3 =>
          rw [h3] at h
          exact hkind _ rest3 h3 (Or.inl rfl) h
        | none =>
          rw [h3] at h
          simp only at h
          cases h3b : afterLit "user-playlists".toList rest2 with
          | none => rw [h3b] at h; exact absurd h (by simp)
          | some rest3 =>
            rw [h3b] at h
            exact hkind _ rest3 h3b (Or.inr rfl) h

theorem amazonAt_isSome (tld kind pid rest : Str) (htld : tld ≠ [])
    (hc : ∀ c ∈ tld, ('a' ≤ c ∧ c ≤ 'z') ∨ c = '.')
    (hk : kind = "playlists".toList ∨ kind = "user-playlists".toList)
    (hne : pid ≠ []) (hp : ∀ c ∈ pid, IsAsciiAlnum c ∨ c = '-') :
    (amazonAt ("music.amazon.".toList ++ (tld ++ '/' :: (kind ++ '/' :: (pid ++ rest))))).isSome
      = true := by
  have hrun := takeWhile_run tldChar tld ('/' :: (kind ++ '/' :: (pid ++ rest)))
    (fun c h => (tldChar_iff c).2 (hc c h)) (by
      intro c h
      have : c = '/' := (Option.some.inj h).symm
      rw [this]
      decide)
  have hid := takeWhile_ne_nil amazonIdChar pid rest hne
    (fun c h => (amazonIdChar_iff c).2 (hp c h))
  have htl : (tld.isEmpty) = false := by cases tld <;> simp_all
  unfold amazonAt
  rw [afterLit_append]
  simp only [hrun.1, hrun.2, htl, Bool.false_eq_true, if_false]
  have hs : afterLit ['/'] ('/' :: (kind ++ '/' :: (pid ++ rest))) =
      some (kind ++ '/' :: (pid ++ rest)) := afterLit_append ['/'] _
  have hs2 : afterLit ['/'] ('/' :: (pid ++ rest)) = some (pid ++ rest) :=
    afterLit_append ['/'] _
  rcases hk with hk | hk
  · subst hk
    simp only [hs, afterLit_append, hs2, hid, Bool.false_eq_true, if_false]
    rfl
  · subst hk
    have hno : afterLit "playlists".toList ("user-playlists".toList ++ '/' :: (pid ++ rest))
        = none := by
      simp [afterLit, List.isPrefixOf]
    simp only [hs, hno, afterLit_append, hs2, hid, Bool.false_eq_true, if_false]
    rfl

/-- C7: a canonical Spotify URL, followed by nothing or by a suffix that does not
start with a letter or digit, parses to the platform `spotify`, its identifier and
itself; and `extractPlaylistInfo` returns no match exactly for the URLs that are
neither a Spotify nor an Amazon Music playlist URL, such as
`https://example.com/foo`. -/
theorem extractPlaylistInfo_spec :
    (∀ pid suffix : Str, pid ≠ [] → (∀ c ∈ pid, IsAsciiAlnum c) →
      (∀ c, suffix.head? = some c → ¬ IsAsciiAlnum c) →
      extractPlaylistInfo ("https://open.spotify.com/playlist/".toList ++ pid ++ suffix) =
        some ⟨"spotify".toList, pid, "https://open.spotify.com/playlist/".toList ++ pid⟩) ∧
    (∀ url : Str,
      extractPlaylistInfo url = none ↔ ¬ SpotifyPlaylistUrl url ∧ ¬ AmazonPlaylistUrl url) ∧
    extractPlaylistInfo "https://open.spotify.com/playlist/37i9dQZF1".toList =
      some ⟨"spotify".toList, "37i9dQZF1".toList,
        "https://open.spotify.com/playlist/37i9dQZF1".toList⟩ ∧
    extractPlaylistInfo "https://example.com/foo".toList = none := by
  refine ⟨?_, ?_, by decide, by decide⟩
  · intro pid suffix hne hp hs
    have hrun := takeWhile_run Char.isAlphanum pid suffix
      (fun c h => (isAlphanum_iff c).2 (hp c h)) (by
        intro c h
        cases hb : c.isAlphanum with
        | false => rfl
        | true => exact absurd ((isAlphanum_iff c).1 hb) (hs c h))
    have hemp : pid.isEmpty = false := by cases pid <;> simp_all
    have hat : spotifyAt ("spotify.com/playlist/".toList ++ (pid ++ suffix)) = some pid := by
      unfold spotifyAt
      rw [afterLit_append]
      simp only [hrun.1, hemp]
      rfl
    have hfm : firstMatch spotifyAt
        ("https://open.spotify.com/playlist/".toList ++ pid ++ suffix) = some pid := by
      have e : "https://open.spotify.com/playlist/".toList ++ pid ++ suffix =
          'h' :: 't' :: 't' :: 'p' :: 's' :: ':' :: '/' :: '/' :: 'o' :: 'p' :: 'e' :: 'n' :: '.' ::
            ("spotify.com/playlist/".toList ++ (pid ++ suffix)) := by
        simp
      rw [e]
      have hstep : ∀ (c : Char) (rest : Str), spotifyAt (c :: rest) = none →
          firstMatch spotifyAt (c :: rest) = firstMatch spotifyAt rest := by
        intro c rest h
        rw [firstMatch, h]
      have hnone : ∀ (c : Char) (rest : Str), c ≠ 's' → spotifyAt (c :: rest) = none := by
        intro c rest h
        have : afterLit "spotify.com/playlist/".toList (c :: rest) = none := by
          unfold afterLit
          simp [List.isPrefixOf, Ne.symm h]
        unfold spotifyAt
        rw [this]
      have hnone2 : ∀ (d : Char) (rest : Str), d ≠ 'p' → spotifyAt ('s' :: d :: rest) = none := by
        intro d rest h
        have : afterLit "spotify.com/playlist/".toList ('s' :: d :: rest) = none := by
          unfold afterLit
          simp [List.isPrefixOf, Ne.symm h]
        unfold spotifyAt
        rw [this]
      rw [hstep _ _ (hnone _ _ (by decide)),
        hstep _ _ (hnone _ _ (by decide)),
        hstep _ _ (hnone _ _ (by decide)),
        hstep _ _ (hnone _ _ (by decide)),
        hstep _ _ (hnone2 _ _ (by decide)),
        hstep _ _ (hnone _ _ (by decide)),
        hstep _ _ (hnone _ _ (by decide)),
        hstep _ _ (hnone _ _ (by decide)),
        hstep _ _ (hnone _ _ (by decide)),
        hstep _ _ (hnone _ _ (by decide)),
        hstep _ _ (hnone _ _ (by decide)),
        hstep _ _ (hnone _ _ (by decide)),
        hstep _ _ (hnone _ _ (by decide))]
      exact firstMatch_head _ _ _ hat
    unfold extractPlaylistInfo
    rw [hfm]
  · intro url
    constructor
    · intro h
      constructor
      · rintro ⟨pre, pid, rest, hu, hne, hp⟩
        have := firstMatch_isSome spotifyAt pre _ (spotifyAt_isSome pid rest hne hp)
        rw [← List.append_assoc, ← List.append_assoc, ← hu] at this
        unfold extractPlaylistInfo at h
        cases hm : firstMatch spotifyAt url with
        | none => rw [hm] at this; exact absurd this (by simp)
        | some g => rw [hm] at h; exact absurd h (by simp)
      · rintro ⟨pre, tld, kind, pid, rest, hu, htld, hc, hk, hne, hp⟩
        have := firstMatch_isSome amazonAt pre _ (amazonAt_isSome tld kind pid rest htld hc hk hne hp)
        have hu2 : url = pre ++ ("music.amazon.".toList ++
            (tld ++ '/' :: (kind ++ '/' :: (pid ++ rest)))) := by
          rw [hu]; simp
        rw [← hu2] at this
        unfold extractPlaylistInfo at h
        cases hm : firstMatch spotifyAt url with
        | some g => rw [hm] at h; exact absurd h (by simp)
        | none =>
          rw [hm] at h
          cases hm2 : firstMatch amazonAt url with
          | none => rw [hm2] at this; exact absurd this (by simp)
          | some g => rw [hm2] at h; exact absurd h (by simp)
    · rintro ⟨hs, ha⟩
      unfold extractPlaylistInfo
      cases hm : firstMatch spotifyAt url with
      | some g =>
        exfalso
        obtain ⟨pre, s, hu, hg⟩ := firstMatch_some _ _ _ hm
        obtain ⟨rest, hs2, hne, hp⟩ := spotifyAt_some _ _ hg
        exact hs ⟨pre, g, rest, by rw [hu, hs2]; simp, hne, hp⟩
      | none =>
        cases hm2 : firstMatch amazonAt url with
        | some g =>
          exfalso
          obtain ⟨pre, s, hu, hg⟩ := firstMatch_some _ _ _ hm2
          obtain ⟨tld, kind, rest, hs2, htld, hc, hk, hne, hp⟩ := amazonAt_some _ _ hg
          exact ha ⟨pre, tld, kind, g, rest, by rw [hu, hs2]; simp, htld, hc, hk, hne, hp⟩
        | none => rfl

/-! ## Storage filenames -/

theorem digitChar_isDigit (k : Nat) (h : k < 10) : (Nat.digitChar k).isDigit = true := by
  interval_cases k <;> decide

theorem digitChar_value (k : Nat) (h : k < 10) : (Nat.digitChar k).toNat - 48 = k := by
  interval_cases k <;> decide

theorem decimalValue_append_singleton (xs : Str) (c : Char) :
    decimalValue (xs ++ [c]) = decimalValue xs * 10 + (c.toNat - 48) := by
  simp [decimalValue, List.foldl_append]

theorem toDigitsCore_spec (fuel : Nat) : ∀ (n : Nat) (ds : Str), n < fuel →
    ∃ xs : Str, Nat.toDigitsCore 10 fuel n ds = xs ++ ds ∧ xs ≠ [] ∧
      (∀ c ∈ xs, c.isDigit = true) ∧ decimalValue xs = n := by
  induction fuel with
  | zero => intro n ds h; omega
  | succ f ih =>
    intro n ds h
    unfold Nat.toDigitsCore
    simp only
    by_cases h0 : n / 10 = 0
    · rw [if_pos h0]
      have hn : n < 10 := by omega
      refine ⟨[Nat.digitChar (n % 10)], rfl, by simp, ?_, ?_⟩
      · intro c hc
        rw [List.mem_singleton] at hc
        rw [hc]
        exact digitChar_isDigit _ (Nat.mod_lt _ (by decide))
      · have := digitChar_value (n % 10) (Nat.mod_lt _ (by decide))
        simp [decimalValue, this]
        omega
    · rw [if_neg h0]
      have hlt : n / 10 < f := by omega
      obtain ⟨xs, hx, hne, hd, hv⟩ := ih (n / 10) (Nat.digitChar (n % 10) :: ds) hlt
      refine ⟨xs ++ [Nat.digitChar (n % 10)], ?_, by simp, ?_, ?_⟩
      · rw [hx]; simp
      · intro c hc
        rcases List.mem_append.1 hc with hc | hc
        · exact hd c hc
        · rw [List.mem_singleton] at hc
          rw [hc]
          exact digitChar_isDigit _ (Nat.mod_lt _ (by decide))
      · rw [decimalValue_append_singleton, hv,
          digitChar_value (n % 10) (Nat.mod_lt _ (by decide))]
        omega

theorem toDigits_spec (n : Nat) :
    Nat.toDigits 10 n ≠ [] ∧ (∀ c ∈ Nat.toDigits 10 n, c.isDigit = true) ∧
      decimalValue (Nat.toDigits 10 n) = n := by
  obtain ⟨xs, hx, hne, hd, hv⟩ := toDigitsCore_spec (n + 1) n [] (Nat.lt_succ_self n)
  have : Nat.toDigits 10 n = xs := by
    unfold Nat.toDigits
    rw [hx]
    simp
  rw [this]
  exact ⟨hne, hd, hv⟩

theorem toDigits_injective {a b : Nat} (h : Nat.toDigits 10 a = Nat.toDigits 10 b) : a = b := by
  rw [← (toDigits_spec a).2.2, ← (toDigits_spec b).2.2, h]

theorem append_sep_inj (sep : Char) : ∀ (xs ys a b : Str), (∀ c ∈ xs, c ≠ sep) →
    (∀ c ∈ ys, c ≠ sep) → xs ++ sep :: a = ys ++ sep :: b → xs = ys ∧ a = b := by
  intro xs
  induction xs with
  | nil =>
    intro ys a b _ hy h
    cases ys with
    | nil => exact ⟨rfl, by simpa using h⟩
    | cons y ys' =>
      have : sep = y := by simpa using (List.cons.inj h).1
      exact absurd this.symm (hy y (by simp))
  | cons x xs' ih =>
    intro ys a b hx hy h
    cases ys with
    | nil =>
      have : x = sep := by simpa using (List.cons.inj h).1
      exact absurd this (hx x (by simp))
    | cons y ys' =>
      have h1 := List.cons.inj h
      have := ih ys' a b (fun c hc => hx c (by simp [hc])) (fun c hc => hy c (by simp [hc])) h1.2
      exact ⟨by rw [h1.1, this.1], this.2⟩

theorem isDigit_ne_dash (c : Char) (h : c.isDigit = true) : c ≠ '-' := by
  rintro rfl
  exact absurd h (by decide)

theorem storageName_clock {t1 t2 : Nat} {o1 o2 : Str}
    (h : storageName t1 o1 = storageName t2 o2) : t1 = t2 := by
  unfold storageName at h
  have := append_sep_inj '-' _ _ _ _
    (fun c hc => isDigit_ne_dash c ((toDigits_spec t1).2.1 c hc))
    (fun c hc => isDigit_ne_dash c ((toDigits_spec t2).2.1 c hc)) h
  exact toDigits_injective this.1

theorem storageName_plainSeg (t : Nat) (o : Str) : PlainSeg (storageName t o) := by
  have hdash : '-' ∈ storageName t o := by simp [storageName]
  refine ⟨?_, ?_, ?_, ?_⟩
  · intro hm
    unfold storageName at hm
    rcases List.mem_append.1 hm with hm | hm
    · exact absurd ((toDigits_spec t).2.1 _ hm) (by decide)
    · rcases List.mem_cons.1 hm with hm | hm
      · exact absurd hm (by decide)
      · unfold sanitize at hm
        obtain ⟨l, hl, hc⟩ := List.mem_flatten.1 hm
        obtain ⟨c, _, rfl⟩ := List.mem_map.1 hl
        unfold sanitizeChar at hc
        by_cases hs : safeChar c = true
        · rw [if_pos hs, List.mem_singleton] at hc
          rw [← hc] at hs
          exact absurd hs (by decide)
        · rw [if_neg hs] at hc
          obtain ⟨_, _, e⟩ := List.mem_map.1 hc
          exact absurd e (by decide)
  · intro e
    rw [e] at hdash
    exact absurd hdash (by simp)
  · intro e
    rw [e] at hdash
    exact absurd hdash (by decide)
  · intro e
    rw [e] at hdash
    exact absurd hdash (by decide)

/-! ## `POST /api/upload` on a stored profile -/

theorem subdirOf_cases (m : Option Str) (o : Str) :
    subdirOf m o = "photos".toList ∨ subdirOf m o = "audios".toList ∨
      subdirOf m o = "videos".toList ∨ subdirOf m o = "files".toList := by
  unfold subdirOf
  split
  · exact Or.inl rfl
  · split
    · exact Or.inr (Or.inl rfl)
    · split
      · exact Or.inr (Or.inr (Or.inl rfl))
      · simp only
        split
        · exact Or.inl rfl
        · split
          · exact Or.inr (Or.inl rfl)
          · split
            · exact Or.inr (Or.inr (Or.inl rfl))
            · exact Or.inr (Or.inr (Or.inr rfl))

theorem subdirOf_plainSeg (m : Option Str) (o : Str) : PlainSeg (subdirOf m o) := by
  rcases subdirOf_cases m o with h | h | h | h <;> rw [h] <;> unfold PlainSeg <;> decide

theorem uploadsDir_valid (env : Env) {id : Str} (hv : ValidId id) :
    pathJoin (UPLOADS_DIR env) [id] = ⟨UPLOADS_DIR env ++ [id], false⟩ :=
  pathJoin_plain _ _ (by
    intro s hs
    rw [List.mem_singleton] at hs
    rw [hs]
    exact hv.plainSeg)

theorem tempJoin_valid (env : Env) (id : Str) (f : UploadedFile) :
    pathJoin (UPLOADS_DIR env ++ [id]) [storageName f.nameClock f.originalname] =
      ⟨tempPath env id f, false⟩ := by
  rw [pathJoin_plain _ _ (by
    intro s hs
    rw [List.mem_singleton] at hs
    rw [hs]
    exact storageName_plainSeg _ _)]
  simp [tempPath]

/-- One step of multer's disk storage for a well-formed id. -/
theorem multerStore_cons (env : Env) {id : Str} (hv : ValidId id) (fs : FS) (f : UploadedFile)
    (rest : List UploadedFile) :
    multerStore env id fs (f :: rest) =
      match mkdirSync fs (UPLOADS_DIR env ++ [id]) with
      | none => .exit fs
      | some fs1 =>
        if fs1 (tempPath env id f) = some .dir then .failed fs1
        else
          match multerStore env id (fs1.write (tempPath env id f) f.content) rest with
          | .stored fs2 files => .stored fs2 (storedOf env id f :: files)
          | .failed fs2 => .failed (fs2.remove (tempPath env id f))
          | .exit fs2 => .exit fs2 := by
  rw [multerStore]
  simp only [uploadsDir_valid env hv, tempJoin_valid]
  rfl

theorem tempPath_length (env : Env) (id : Str) (f : UploadedFile) :
    (tempPath env id f).length = (UPLOADS_DIR env).length + 2 := by
  simp [tempPath]

theorem docPath_length (env : Env) (id : Str) :
    (docPath env id).length = (UPLOADS_DIR env).length + 1 := by
  simp [docPath, DATA_DIR, UPLOADS_DIR]

/-- The disk storage of multer, whatever its outcome, adds and removes regular files
only at paths `uploads/<id>/<name>`. -/
theorem multerStore_keeps (env : Env) {id : Str} (hv : ValidId id) (files : List UploadedFile)
    (q : Path) (x : File) (hq : q.length ≠ (UPLOADS_DIR env).length + 2) :
    ∀ fs : FS, (multerStore env id fs files).fs q = some (.file x) ↔ fs q = some (.file x) := by
  induction files with
  | nil => intro fs; rfl
  | cons f rest ih =>
    intro fs
    have hne : q ≠ tempPath env id f := by
      intro e
      rw [e, tempPath_length] at hq
      exact hq rfl
    rw [multerStore_cons env hv]
    cases hm : mkdirSync fs (UPLOADS_DIR env ++ [id]) with
    | none => rfl
    | some fs1 =>
      have hk := mkdirSync_keeps_file hm q x
      simp only
      by_cases hd : fs1 (tempPath env id f) = some .dir
      · rw [if_pos hd]
        exact hk
      · rw [if_neg hd]
        have hi := ih (fs1.write (tempPath env id f) f.content)
        rw [FS.write_other _ _ hne] at hi
        cases hres : multerStore env id (fs1.write (tempPath env id f) f.content) rest with
        | stored fs2 sf =>
          rw [hres] at hi
          exact hi.trans hk
        | failed fs2 =>
          rw [hres] at hi
          show (fs2.remove _) q = _ ↔ _
          rw [FS.remove_other _ hne]
          exact hi.trans hk
        | exit fs2 =>
          rw [hres] at hi
          exact hi.trans hk

/-- When multer's disk storage stores every part, the file system and `req.files`
are these. -/
theorem multerStore_stored (env : Env) {id : Str} (hv : ValidId id) (files : List UploadedFile) :
    ∀ (fs fs1 : FS) (sf : List StoredFile), multerStore env id fs files = .stored fs1 sf →
      fs1 = multerFS env id fs files ∧ sf = files.map (storedOf env id) := by
  induction files with
  | nil =>
    intro fs fs1 sf h
    rw [multerStore] at h
    injection h with h1 h2
    exact ⟨h1.symm, h2.symm⟩
  | cons f rest ih =>
    intro fs fs1 sf h
    rw [multerStore_cons env hv] at h
    cases hm : mkdirSync fs (UPLOADS_DIR env ++ [id]) with
    | none => rw [hm] at h; exact absurd h (by simp)
    | some fs0 =>
      rw [hm] at h
      simp only at h
      by_cases hd : fs0 (tempPath env id f) = some .dir
      · rw [if_pos hd] at h
        exact absurd h (by simp)
      · rw [if_neg hd] at h
        cases hres : multerStore env id (fs0.write (tempPath env id f) f.content) rest with
        | stored fs2 sf2 =>
          rw [hres] at h
          injection h with h1 h2
          obtain ⟨e1, e2⟩ := ih _ _ _ hres
          rw [mkdirSync_some hm] at e1
          rw [← h1, ← h2, e1, e2]
          exact ⟨rfl, rfl⟩
        | failed fs2 => rw [hres] at h; exact absurd h (by simp)
        | exit fs2 => rw [hres] at h; exact absurd h (by simp)

theorem multerStore_hasProfile {env : Env} {fs : FS} {id : Str} {d : Profile}
    (h : HasProfile env fs id d) (files : List UploadedFile) :
    HasProfile env (multerStore env id fs files).fs id d :=
  ⟨h.1, (multerStore_keeps env h.1 files _ _ (by rw [docPath_length]; omega) fs).2 h.2⟩

theorem docPath_ne_of_length (env : Env) (id : Str) (rest : List Str) (h : 2 ≤ rest.length) :
    docPath env id ≠ UPLOADS_DIR env ++ rest := by
  intro e
  have := congrArg List.length e
  simp [docPath, DATA_DIR, UPLOADS_DIR] at this
  omega

theorem subdirPath_valid (env : Env) {id : Str} (hv : ValidId id) (f : UploadedFile) :
    pathJoin (UPLOADS_DIR env) [id, subdirOf f.mimetype f.originalname] =
      ⟨UPLOADS_DIR env ++ [id, subdirOf f.mimetype f.originalname], false⟩ :=
  pathJoin_plain _ _ (by
    intro s hs
    simp only [List.mem_cons, List.mem_singleton, List.not_mem_nil, or_false] at hs
    rcases hs with h | h
    · rw [h]; exact hv.plainSeg
    · rw [h]; exact subdirOf_plainSeg _ _)

theorem finalPath_valid (env : Env) (id : Str) (f : UploadedFile) :
    pathJoin (UPLOADS_DIR env ++ [id, subdirOf f.mimetype f.originalname])
        [storageName f.nameClock f.originalname] =
      ⟨UPLOADS_DIR env ++
        [id, subdirOf f.mimetype f.originalname, storageName f.nameClock f.originalname],
        false⟩ := by
  rw [pathJoin_plain _ _ (by
    intro s hs
    rw [List.mem_singleton] at hs
    rw [hs]
    exact storageName_plainSeg _ _)]
  simp

theorem renameSync_keeps (fs fs2 : FS) (old new q : Path) (h : renameSync fs old new = some fs2)
    (ho : q ≠ old) (hn : q ≠ new) : fs2 q = fs q := by
  unfold renameSync at h
  cases hf : fs old with
  | none => rw [hf] at h; exact absurd h (by simp)
  | some n =>
    cases n with
    | dir => rw [hf] at h; exact absurd h (by simp)
    | file f =>
      rw [hf] at h
      simp only at h
      split at h
      · exact absurd h (by simp)
      · rw [← Option.some.inj h, FS.write_other _ _ hn, FS.remove_other _ ho]

theorem renameSync_file (fs : FS) (old new : Path) (f : File) (h : fs old = some (.file f))
    (hn : fs new ≠ some .dir) :
    renameSync fs old new = some ((fs.remove old).write new f) := by
  unfold renameSync
  rw [h]
  simp only
  rw [if_neg hn]

theorem renameSync_none (fs : FS) (old new : Path) (h : fs old = none) :
    renameSync fs old new = none := by
  unfold renameSync
  rw [h]

/-- One iteration of the loop of upload for a part of a well-formed id. -/
theorem uploadLoop_cons (env : Env) {id : Str} (hv : ValidId id) (f : UploadedFile)
    (rest : List StoredFile) (doc : Profile) (fs : FS) :
    uploadLoop env id (storedOf env id f :: rest) doc fs =
      match mkdirSync fs (UPLOADS_DIR env ++ [id, subdirOf f.mimetype f.originalname]) with
      | none => .error fs
      | some fs0 =>
        match renameSync fs0 (tempPath env id f)
            (UPLOADS_DIR env ++
              [id, subdirOf f.mimetype f.originalname, storageName f.nameClock f.originalname])
          with
        | none => .error fs0
        | some fs1 =>
          uploadLoop env id rest
            (pushRecord doc (subdirOf f.mimetype f.originalname)
              (recordOf id (subdirOf f.mimetype f.originalname) (storedOf env id f))) fs1 := by
  rw [uploadLoop]
  show (match mkdirSync fs
      (pathJoin (UPLOADS_DIR env) [id, subdirOf f.mimetype f.originalname]).segs with
    | none => Except.error fs
    | some fs0 =>
      match renameSync fs0 (tempPath env id f)
        (pathJoin (pathJoin (UPLOADS_DIR env) [id, subdirOf f.mimetype f.originalname]).segs
          [storageName f.nameClock f.originalname]).segs with
      | none => Except.error fs0
      | some fs1 => _) = _
  rw [subdirPath_valid env hv f]
  simp only [finalPath_valid env id f]
  rfl

theorem recordAll_cons (id : Str) (doc : Profile) (f : StoredFile) (rest : List StoredFile) :
    recordAll id doc (f :: rest) =
      recordAll id
        (pushRecord doc (subdirOf f.part.mimetype f.part.originalname)
          (recordOf id (subdirOf f.part.mimetype f.part.originalname) f)) rest := rfl

/-- The loop of upload, whether it ends or throws, leaves every regular file outside
`uploads/<id>/` where it is; when it ends, the document has the records of all
parts. -/
theorem uploadLoop_spec (env : Env) {id : Str} (hv : ValidId id) (q : Path) (x : File)
    (hq : q.length ≤ (UPLOADS_DIR env).length + 1) (files : List UploadedFile) :
    ∀ (doc : Profile) (fs : FS),
      (∀ fs2, uploadLoop env id (files.map (storedOf env id)) doc fs = .error fs2 →
        (fs2 q = some (.file x) ↔ fs q = some (.file x))) ∧
      (∀ doc2 fs2, uploadLoop env id (files.map (storedOf env id)) doc fs = .ok (doc2, fs2) →
        (fs2 q = some (.file x) ↔ fs q = some (.file x)) ∧
          doc2 = recordAll id doc (files.map (storedOf env id))) := by
  induction files with
  | nil =>
    intro doc fs
    constructor
    · intro fs2 h
      rw [List.map_nil, uploadLoop] at h
      exact absurd h (by simp)
    · intro doc2 fs2 h
      rw [List.map_nil, uploadLoop] at h
      have h' := Except.ok.inj h
      have h1 : doc = doc2 := congrArg Prod.fst h'
      have h2 : fs = fs2 := congrArg Prod.snd h'
      subst h1 h2
      exact ⟨Iff.rfl, rfl⟩
  | cons f rest ih =>
    intro doc fs
    rw [List.map_cons, uploadLoop_cons env hv, recordAll_cons]
    cases hm : mkdirSync fs (UPLOADS_DIR env ++ [id, subdirOf f.mimetype f.originalname]) with
    | none =>
      constructor
      · intro fs2 h
        have h' := Except.error.inj h
        rw [← h']
      · intro doc2 fs2 h
        exact absurd h (by simp)
    | some fs0 =>
      have hk0 := mkdirSync_keeps_file hm q x
      simp only
      cases hr : renameSync fs0 (tempPath env id f)
          (UPLOADS_DIR env ++
            [id, subdirOf f.mimetype f.originalname, storageName f.nameClock f.originalname]) with
      | none =>
        constructor
        · intro fs2 h
          have h' := Except.error.inj h
          rw [← h']
          exact hk0
        · intro doc2 fs2 h
          exact absurd h (by simp)
      | some fs1 =>
        have hk : fs1 q = fs0 q :=
          renameSync_keeps _ _ _ _ _ hr
            (by
              intro e
              rw [e, tempPath_length] at hq
              omega)
            (by
              intro e
              rw [e] at hq
              simp at hq)
        have hi := ih (pushRecord doc (subdirOf f.mimetype f.originalname)
          (recordOf id (subdirOf f.mimetype f.originalname) (storedOf env id f))) fs1
        rw [hk] at hi
        constructor
        · intro fs2 h
          exact (hi.1 fs2 h).trans hk0
        · intro doc2 fs2 h
          exact ⟨((hi.2 doc2 fs2 h).1).trans hk0, (hi.2 doc2 fs2 h).2⟩

/-- The handler of upload on a stored profile. -/
theorem upload_stored {env : Env} {fs : FS} {id : Str} {d : Profile}
    (h : HasProfile env fs id d) (r : UploadReq) (he : r.multerError = false) :
    upload env fs (some id) r =
      match multerStore env id fs r.files with
      | .exit fs1 => (processExit, fs1)
      | .failed fs1 => (⟨500, .text "Upload error"⟩, fs1)
      | .stored fs1 files =>
        if adminOrPass env (orEmpty r.passcode) d = true then
          match uploadLoop env id files d fs1 with
          | .error fs2 => (processExit, fs2)
          | .ok (doc2, fs2) => (⟨200, .text "OK"⟩, fs2.write (docPath env id) (.doc doc2))
        else (⟨403, .text "Bad passcode"⟩, fs1) := by
  have hm := multerStore_hasProfile h r.files
  unfold upload
  simp only [truthy_some_of_valid h.1, orEmpty_some, he]
  cases hres : multerStore env id fs r.files with
  | exit fs1 => rfl
  | failed fs1 => rfl
  | stored fs1 sf =>
    rw [hres] at hm
    have hm1 : HasProfile env fs1 id d := hm
    show afterMulter env fs1 id r.passcode sf = _
    unfold afterMulter
    simp only [hm1.existsSync, hm1.readJson, writeJson_dataFile env _ h.1]
    by_cases hp : adminOrPass env (orEmpty r.passcode) d = true
    · simp only [hp, if_pos]
      simp
    · simp [hp]

/-! ## The passcode check (C1, C2) -/

theorem hash_eq_iff {env : Env} (hinj : Function.Injective env.sha256hex) {d : Profile}
    {p q : Str} (hp : d.passHash = hashPass env p) : hashPass env q = d.passHash ↔ q = p := by
  rw [hp]
  exact ⟨fun e => hinj e, fun e => by rw [e]⟩

theorem adminOrPass_iff (env : Env) (q : Str) (d : Profile) :
    adminOrPass env q d = true ↔
      ((env.ADMIN ≠ [] ∧ q = env.ADMIN) ∨ hashPass env q = d.passHash) := by
  unfold adminOrPass
  have : (!env.ADMIN.isEmpty) = true ↔ env.ADMIN ≠ [] := by
    cases env.ADMIN <;> simp
  simp only [Bool.or_eq_true, Bool.and_eq_true, this, beq_iff_eq]

theorem truthy_false_of_orEmpty_nil (x : Option Str) (h : orEmpty x = []) : truthy x = false := by
  cases x with
  | none => rfl
  | some s =>
    have : s = [] := h
    rw [this]
    rfl

/-- The outcomes of upload on a stored profile, by the outcome of multer's disk
storage and of the passcode check. -/
theorem upload_status {env : Env} {fs : FS} {id : Str} {d : Profile}
    (h : HasProfile env fs id d) (r : UploadReq) :
    ((upload env fs (some id) r).1.status = 403 ↔
      (r.multerError = false ∧ (∃ fs1 files, multerStore env id fs r.files = .stored fs1 files) ∧
        adminOrPass env (orEmpty r.passcode) d = false)) ∧
    (upload env fs (some id) r).1.status ≠ 400 ∧
    ((upload env fs (some id) r).1.status = 403 →
      (upload env fs (some id) r).2 (docPath env id) = some (.file (.doc d))) := by
  cases he : r.multerError with
  | true =>
    have hform : upload env fs (some id) r = (⟨500, .text "Upload error"⟩, fs) := by
      unfold upload
      simp [truthy_some_of_valid h.1, he]
    rw [hform]
    refine ⟨?_, by simp, ?_⟩
    · constructor
      · intro e; simp at e
      · intro e; exact absurd e.1 (by simp)
    · intro e; simp at e
  | false =>
    have hm := multerStore_hasProfile h r.files
    rw [upload_stored h r he]
    cases hres : multerStore env id fs r.files with
    | exit fs1 =>
      refine ⟨?_, by simp [processExit], ?_⟩
      · constructor
        · intro e; simp [processExit] at e
        · rintro ⟨_, ⟨a, b, e⟩, _⟩
          exact absurd e (by simp)
      · intro e; simp [processExit] at e
    | failed fs1 =>
      refine ⟨?_, by simp, ?_⟩
      · constructor
        · intro e; simp at e
        · rintro ⟨_, ⟨a, b, e⟩, _⟩
          exact absurd e (by simp)
      · intro e; simp at e
    | stored fs1 sf =>
      rw [hres] at hm
      have hm1 : fs1 (docPath env id) = some (.file (.doc d)) := hm.2
      simp only
      by_cases hc : adminOrPass env (orEmpty r.passcode) d = true
      · rw [if_pos hc]
        have hns : ∀ x : Except FS (Profile × FS),
            (match x with
              | .error fs2 => (processExit, fs2)
              | .ok (doc2, fs2) =>
                ((⟨200, .text "OK"⟩ : Response), fs2.write (docPath env id) (.doc doc2))).1.status
              ≠ 403 ∧
            (match x with
              | .error fs2 => (processExit, fs2)
              | .ok (doc2, fs2) =>
                ((⟨200, .text "OK"⟩ : Response), fs2.write (docPath env id) (.doc doc2))).1.status
              ≠ 400 := by
          intro x
          cases x with
          | error e => simp [processExit]
          | ok v => simp
        refine ⟨?_, (hns _).2, fun e => absurd e (hns _).1⟩
        constructor
        · intro e
          exact absurd e (hns _).1
        · rintro ⟨_, _, e⟩
          rw [hc] at e
          exact absurd e (by simp)
      · rw [if_neg hc]
        refine ⟨?_, by simp, fun _ => hm1⟩
        constructor
        · intro _
          exact ⟨trivial, ⟨fs1, sf, rfl⟩, by simpa using hc⟩
        · intro _
          rfl

theorem status_403_of_gate {α : Type} (c : Prop) [Decidable c] (a : Response × α) (fs : α)
    (ha : a.1.status ≠ 403) :
    ((if c then a else (⟨403, .text "Bad passcode"⟩, fs)).1.status = 403 ↔ ¬ c) := by
  by_cases hc : c
  · simp [hc, ha]
  · simp [hc]

/-- C1 (amended): for a stored profile whose `passHash` is `hash(p)`, with an
injective digest, and a call that supplies the passcode `q` (an absent passcode
counts as the empty one): edit-profile is answered 403 exactly when `q` differs
from `p`. Upload is answered 403 exactly when multer has stored the parts of
the request without an error, `q` differs from `p` and `q` is not the non-empty
admin secret. Delete-file, add-playlist and delete-playlist answer 400 when a
required field is absent or empty, in particular when `q` is empty, and
otherwise are answered 403 exactly when `q` differs from `p`. A call answered
403 or 400 leaves the stored profile document as it was. -/
theorem passcode_gate (env : Env) (hinj : Function.Injective env.sha256hex) (fs : FS) (id : Str)
    (d : Profile) (p q : Str) (h : HasProfile env fs id d) (hp : d.passHash = hashPass env p) :
    (∀ r : EditReq, orEmpty r.passcode = q →
      ((editProfile env fs (some id) r).1.status = 403 ↔ q ≠ p) ∧
      ((editProfile env fs (some id) r).1.status = 403 ∨
          (editProfile env fs (some id) r).1.status = 400 →
        (editProfile env fs (some id) r).2 (docPath env id) = some (.file (.doc d)))) ∧
    (∀ r : UploadReq, orEmpty r.passcode = q →
      ((upload env fs (some id) r).1.status = 403 ↔
        (r.multerError = false ∧
          (∃ fs1 files, multerStore env id fs r.files = .stored fs1 files) ∧
          q ≠ p ∧ ¬ (env.ADMIN ≠ [] ∧ q = env.ADMIN))) ∧
      ((upload env fs (some id) r).1.status = 403 ∨ (upload env fs (some id) r).1.status = 400 →
        (upload env fs (some id) r).2 (docPath env id) = some (.file (.doc d)))) ∧
    (∀ r : DeleteReq, orEmpty r.passcode = q →
      (q = [] → r.missing = true) ∧
      (r.missing = true → (deleteFile env fs (some id) r).1 =
        ⟨400, .text "Missing type, filename, or passcode"⟩) ∧
      (r.missing = false → ((deleteFile env fs (some id) r).1.status = 403 ↔ q ≠ p)) ∧
      ((deleteFile env fs (some id) r).1.status = 403 ∨
          (deleteFile env fs (some id) r).1.status = 400 →
        (deleteFile env fs (some id) r).2 (docPath env id) = some (.file (.doc d)))) ∧
    (∀ r : AddPlaylistReq, orEmpty r.passcode = q →
      (q = [] → r.missing = true) ∧
      (r.missing = true → (addPlaylist env fs (some id) r).1 = ⟨400, .text "Missing fields"⟩) ∧
      (r.missing = false → ((addPlaylist env fs (some id) r).1.status = 403 ↔ q ≠ p)) ∧
      ((addPlaylist env fs (some id) r).1.status = 403 ∨
          (addPlaylist env fs (some id) r).1.status = 400 →
        (addPlaylist env fs (some id) r).2 (docPath env id) = some (.file (.doc d)))) ∧
    (∀ r : DeletePlaylistReq, orEmpty r.passcode = q →
      (q = [] → r.missing = true) ∧
      (r.missing = true →
        (deletePlaylist env fs (some id) r).1 = ⟨400, .text "Missing fields"⟩) ∧
      (r.missing = false → ((deletePlaylist env fs (some id) r).1.status = 403 ↔ q ≠ p)) ∧
      ((deletePlaylist env fs (some id) r).1.status = 403 ∨
          (deletePlaylist env fs (some id) r).1.status = 400 →
        (deletePlaylist env fs (some id) r).2 (docPath env id) = some (.file (.doc d)))) := by
  have hid := truthy_some_of_valid h.1
  refine ⟨?_, ?_, ?_, ?_, ?_⟩
  · intro r hq
    have hform := editProfile_stored h r
    rw [hq] at hform
    rw [hform]
    constructor
    · rw [status_403_of_gate _ _ _ (by simp), hash_eq_iff hinj hp]
    · intro hs
      by_cases hc : hashPass env q = d.passHash
      · rw [if_pos hc] at hs
        simp at hs
      · rw [if_neg hc]
        exact h.2
  · intro r hq
    have hst := upload_status h r
    rw [hq] at hst
    have hiff : adminOrPass env q d = false ↔ (q ≠ p ∧ ¬ (env.ADMIN ≠ [] ∧ q = env.ADMIN)) := by
      rw [← Bool.not_eq_true, adminOrPass_iff, hash_eq_iff hinj hp]
      tauto
    constructor
    · rw [hst.1, hiff]
    · rintro (hs | hs)
      · exact hst.2.2 hs
      · exact absurd hs hst.2.1
  · intro r hq
    have hmiss : r.missing = true → deleteFile env fs (some id) r =
        (⟨400, .text "Missing type, filename, or passcode"⟩, fs) :=
      deleteFile_missing env fs id r hid
    refine ⟨?_, fun hm => by rw [hmiss hm], ?_, ?_⟩
    · intro hq0
      have := truthy_false_of_orEmpty_nil r.passcode (hq.trans hq0)
      simp [DeleteReq.missing, this]
    · intro hm
      have hform := deleteFile_stored h r hm
      rw [hq] at hform
      rw [hform]
      rw [status_403_of_gate _ _ _ (by
        split
        · split
          · simp
          · split <;> simp
        · simp), hash_eq_iff hinj hp]
    · intro hs
      cases hm : r.missing with
      | true =>
        rw [hmiss hm]
        exact h.2
      | false =>
        have hform := deleteFile_stored h r hm
        rw [hq] at hform
        rw [hform] at hs ⊢
        by_cases hc : hashPass env q = d.passHash
        · rw [if_pos hc] at hs
          exfalso
          revert hs
          split
          · split
            · simp
            · split <;> simp
          · simp
        · rw [if_neg hc]
          exact h.2
  · intro r hq
    have hmiss : r.missing = true → addPlaylist env fs (some id) r =
        (⟨400, .text "Missing fields"⟩, fs) := by
      intro hm
      refine addPlaylist_missing env fs _ r ?_
      unfold AddPlaylistReq.missing at hm
      simp only [hid, Bool.not_true, Bool.false_or]
      exact hm
    have hpresent : r.missing = false →
        truthy r.playlistUrl = true ∧ truthy r.passcode = true := by
      intro hm
      unfold AddPlaylistReq.missing at hm
      constructor
      · cases h1 : truthy r.playlistUrl <;> simp_all
      · cases h1 : truthy r.passcode <;> simp_all
    refine ⟨?_, fun hm => by rw [hmiss hm], ?_, ?_⟩
    · intro hq0
      have := truthy_false_of_orEmpty_nil r.passcode (hq.trans hq0)
      simp [AddPlaylistReq.missing, this]
    · intro hm
      have hform := addPlaylist_stored h r (hpresent hm).1 (hpresent hm).2
      rw [hq] at hform
      rw [hform]
      rw [status_403_of_gate _ _ _ (by split <;> simp), hash_eq_iff hinj hp]
    · intro hs
      cases hm : r.missing with
      | true =>
        rw [hmiss hm]
        exact h.2
      | false =>
        have hform := addPlaylist_stored h r (hpresent hm).1 (hpresent hm).2
        rw [hq] at hform
        rw [hform] at hs ⊢
        by_cases hc : hashPass env q = d.passHash
        · rw [if_pos hc] at hs ⊢
          cases hx : extractPlaylistInfo (orEmpty r.playlistUrl) with
          | none => exact h.2
          | some info =>
            rw [hx] at hs
            simp at hs
        · rw [if_neg hc]
          exact h.2
  · intro r hq
    have hmiss : r.missing = true → deletePlaylist env fs (some id) r =
        (⟨400, .text "Missing fields"⟩, fs) := by
      intro hm
      refine deletePlaylist_missing env fs _ r ?_
      unfold DeletePlaylistReq.missing at hm
      simp only [hid, Bool.not_true, Bool.false_or]
      exact hm
    have hpresent : r.missing = false →
        truthy r.playlistId = true ∧ truthy r.passcode = true := by
      intro hm
      unfold DeletePlaylistReq.missing at hm
      constructor
      · cases h1 : truthy r.playlistId <;> simp_all
      · cases h1 : truthy r.passcode <;> simp_all
    refine ⟨?_, fun hm => by rw [hmiss hm], ?_, ?_⟩
    · intro hq0
      have := truthy_false_of_orEmpty_nil r.passcode (hq.trans hq0)
      simp [DeletePlaylistReq.missing, this]
    · intro hm
      have hform := deletePlaylist_stored h r (hpresent hm).1 (hpresent hm).2
      rw [hq] at hform
      rw [hform]
      rw [status_403_of_gate _ _ _ (by simp), hash_eq_iff hinj hp]
    · intro hs
      cases hm : r.missing with
      | true =>
        rw [hmiss hm]
        exact h.2
      | false =>
        have hform := deletePlaylist_stored h r (hpresent hm).1 (hpresent hm).2
        rw [hq] at hform
        rw [hform] at hs ⊢
        by_cases hc : hashPass env q = d.passHash
        · rw [if_pos hc] at hs
          simp at hs
        · rw [if_neg hc]
          exact h.2

/-- The instance of `passcode_gate` on the example store (digest: the identity):
edit-profile with the passcode `wrong` is answered 403 and the document stays. -/
theorem passcode_gate_witness :
    Function.Injective (exampleEnv id).sha256hex ∧
    HasProfile (exampleEnv id) (exampleStore id) "abc".toList (exampleDoc id) ∧
    (exampleDoc id).passHash = hashPass (exampleEnv id) "secret".toList ∧
    (editProfile (exampleEnv id) (exampleStore id) (some "abc".toList)
        ⟨none, none, some "wrong".toList, none, none, none⟩).1.status = 403 ∧
    (editProfile (exampleEnv id) (exampleStore id) (some "abc".toList)
        ⟨none, none, some "wrong".toList, none, none, none⟩).2
      (docPath (exampleEnv id) "abc".toList) = some (.file (.doc (exampleDoc id))) :=
  ⟨fun _ _ e => e, exampleStore_hasProfile id, rfl,
    ((passcode_gate (exampleEnv id) (fun _ _ e => e) (exampleStore id) "abc".toList
      (exampleDoc id) "secret".toList "wrong".toList (exampleStore_hasProfile id) rfl).1
      ⟨none, none, some "wrong".toList, none, none, none⟩ rfl).1.2 (by decide),
    ((passcode_gate (exampleEnv id) (fun _ _ e => e) (exampleStore id) "abc".toList
      (exampleDoc id) "secret".toList "wrong".toList (exampleStore_hasProfile id) rfl).1
      ⟨none, none, some "wrong".toList, none, none, none⟩ rfl).2
      (Or.inl (((passcode_gate (exampleEnv id) (fun _ _ e => e) (exampleStore id) "abc".toList
        (exampleDoc id) "secret".toList "wrong".toList (exampleStore_hasProfile id) rfl).1
        ⟨none, none, some "wrong".toList, none, none, none⟩ rfl).1.2 (by decide)))⟩

/-- C1 (as stated) fails: on the profile `abc` created with the passcode `secret`,
whatever the digest, an upload with the passcode `root` (the admin secret, which
differs from `secret`) is answered 200; an upload with the passcode `wrong` whose
body multer cannot read is answered 500, not 403; a delete-file with an empty
passcode is answered 400, not 403; and on a profile created with the empty
passcode, delete-file with the same empty passcode does not pass either. -/
theorem passcode_gate_counterexample :
    "root".toList ≠ "secret".toList ∧ "wrong".toList ≠ "secret".toList ∧
    (∀ sha : Str → Str,
      (upload (exampleEnv sha) (exampleStore sha) (some "abc".toList)
        ⟨some "root".toList, [], false⟩).1.status = 200) ∧
    (∀ sha : Str → Str,
      (upload (exampleEnv sha) (exampleStore sha) (some "abc".toList)
        ⟨some "wrong".toList, [], true⟩).1.status = 500) ∧
    (∀ sha : Str → Str,
      (deleteFile (exampleEnv sha) (exampleStore sha) (some "abc".toList)
        ⟨some "photos".toList, some "x.png".toList, some []⟩).1.status = 400) ∧
    (∀ sha : Str → Str,
      (deleteFile (exampleEnv sha)
        (createProfile (exampleEnv sha) (startStore (exampleEnv sha))
          ⟨some "abc".toList, none, some [], none⟩).2
        (some "abc".toList) ⟨some "photos".toList, some "x.png".toList, some []⟩).1.status
        = 400) := by
  refine ⟨by decide, by decide, ?_, ?_, ?_, ?_⟩
  · intro sha
    rw [upload_stored (exampleStore_hasProfile sha) _ rfl]
    have : adminOrPass (exampleEnv sha) (orEmpty (some "root".toList)) (exampleDoc sha) = true := by
      rw [adminOrPass_iff]
      exact Or.inl ⟨by show "root".toList ≠ []; decide, rfl⟩
    simp only [multerStore]
    rw [if_pos this]
    rfl
  · intro sha
    rfl
  · intro sha
    rw [deleteFile_missing _ _ _ _ (by decide) (by decide)]
  · intro sha
    rw [deleteFile_missing _ _ _ _ (by decide) (by decide)]

/-- C2 (code): the admin override is implemented by upload and login only. With the
admin secret `root` and the profile `abc` created with the passcode `secret`, a call
that supplies `root` is answered 403 by edit-profile, delete-file, add-playlist
and delete-playlist, which leave the store as it was, while upload and login
answer 200. -/
theorem admin_override_only_in_upload (sha : Str → Str)
    (h : sha "root".toList ≠ sha "secret".toList) :
    (exampleEnv sha).ADMIN = "root".toList ∧
    editProfile (exampleEnv sha) (exampleStore sha) (some "abc".toList)
        ⟨some "new name".toList, none, some "root".toList, none, none, none⟩ =
      (⟨403, .text "Bad passcode"⟩, exampleStore sha) ∧
    deleteFile (exampleEnv sha) (exampleStore sha) (some "abc".toList)
        ⟨some "photos".toList, some "x.png".toList, some "root".toList⟩ =
      (⟨403, .text "Bad passcode"⟩, exampleStore sha) ∧
    addPlaylist (exampleEnv sha) (exampleStore sha) (some "abc".toList)
        ⟨some "https://open.spotify.com/playlist/37i9dQZF1".toList, some "root".toList, 0⟩ =
      (⟨403, .text "Bad passcode"⟩, exampleStore sha) ∧
    deletePlaylist (exampleEnv sha) (exampleStore sha) (some "abc".toList)
        ⟨some "37i9dQZF1".toList, some "root".toList⟩ =
      (⟨403, .text "Bad passcode"⟩, exampleStore sha) ∧
    (upload (exampleEnv sha) (exampleStore sha) (some "abc".toList)
      ⟨some "root".toList, [], false⟩).1 = ⟨200, .text "OK"⟩ ∧
    login (exampleEnv sha) (exampleStore sha) (some "abc".toList) "root".toList =
      ⟨200, .text "OK"⟩ := by
  have hs := exampleStore_hasProfile sha
  have hne : ¬ hashPass (exampleEnv sha) "root".toList = (exampleDoc sha).passHash := h
  have hadm : adminOrPass (exampleEnv sha) "root".toList (exampleDoc sha) = true := by
    rw [adminOrPass_iff]
    exact Or.inl ⟨by show "root".toList ≠ []; decide, rfl⟩
  refine ⟨rfl, ?_, ?_, ?_, ?_, ?_, ?_⟩
  · rw [editProfile_stored hs]
    exact if_neg hne
  · rw [deleteFile_stored hs _ (by decide)]
    exact if_neg hne
  · rw [addPlaylist_stored hs _ (by decide) (by decide)]
    exact if_neg hne
  · rw [deletePlaylist_stored hs _ (by decide) (by decide)]
    exact if_neg hne
  · rw [upload_stored hs _ rfl]
    have : adminOrPass (exampleEnv sha) (orEmpty (some "root".toList)) (exampleDoc sha) = true :=
      hadm
    simp only [multerStore]
    rw [if_pos this]
    rfl
  · rw [login_stored hs]
    exact if_pos hadm

/-- The instance of `admin_override_only_in_upload` for the identity as digest. -/
theorem admin_override_only_in_upload_witness :
    "root".toList ≠ "secret".toList ∧
    editProfile (exampleEnv id) (exampleStore id) (some "abc".toList)
        ⟨some "new name".toList, none, some "root".toList, none, none, none⟩ =
      (⟨403, .text "Bad passcode"⟩, exampleStore id) :=
  ⟨by decide, (admin_override_only_in_upload id (by decide)).2.1⟩

/-! ## Paths with `..` -/

theorem normSegs_plain_cons (stack : List Str) (seg : Str) (rest : List Str) (h : PlainSeg seg) :
    normSegs stack (seg :: rest) = normSegs (seg :: stack) rest := by
  obtain ⟨_, h1, h2, h3⟩ := h
  simp [normSegs, h1, h2, h3]

theorem normSegs_dotdot (stack : List Str) (rest : List Str) :
    normSegs stack (['.', '.'] :: rest) = normSegs stack.tail rest := by
  simp [normSegs]

theorem splitSlash_append_slash (s rest : Str) (h : '/' ∉ s) :
    splitSlash (s ++ '/' :: rest) = s :: splitSlash rest := by
  induction s with
  | nil => simp [splitSlash]
  | cons c cs ih =>
    have hc : c ≠ '/' := fun e => h (by simp [e])
    have hcs : '/' ∉ cs := fun e => h (by simp [e])
    show splitSlash (c :: (cs ++ '/' :: rest)) = _
    rw [splitSlash, if_neg hc, ih hcs]

theorem pathJoin_three_trailing (base : Path) (a t f : Str) (hf : f ≠ []) :
    (pathJoin base [a, t, f]).trailingSlash = (f.getLast? == some '/') := by
  have hfe : f.isEmpty = false := by cases f <;> simp_all
  unfold pathJoin
  cases a <;> cases t <;> simp [List.filter, hfe, List.getLast?]

theorem getLast?_json (s : Str) : ((s ++ ".json".toList).getLast? == some '/') = false := by
  have : (s ++ ".json".toList).getLast? = some 'n' := by
    rw [List.getLast?_append]
    rfl
  rw [this]
  rfl

/-- The path that `/api/delete-file` builds for the profile `a`, the type `photos`
and the filename `../../../data/<b>.json` is the document of `b`. -/
theorem pathJoin_to_document (env : Env) {a b : Str} (ha : ValidId a) (hb : ValidId b) :
    pathJoin (UPLOADS_DIR env) [a, "photos".toList, "../../../data/".toList ++ b ++ ".json".toList]
      = ⟨docPath env b, false⟩ := by
  have hsplit : splitSlash ("../../../data/".toList ++ b ++ ".json".toList) =
      [['.', '.'], ['.', '.'], ['.', '.'], "data".toList, b ++ ".json".toList] := by
    have e : "../../../data/".toList ++ b ++ ".json".toList =
        ['.', '.'] ++ '/' :: (['.', '.'] ++ '/' :: (['.', '.'] ++ '/' ::
          ("data".toList ++ '/' :: (b ++ ".json".toList)))) := by
      simp
    rw [e, splitSlash_append_slash _ _ (by decide), splitSlash_append_slash _ _ (by decide),
      splitSlash_append_slash _ _ (by decide), splitSlash_append_slash _ _ (by decide),
      splitSlash_of_not_mem _ hb.plainSeg_json.1]
  have htrail := pathJoin_three_trailing (UPLOADS_DIR env) a "photos".toList
    ("../../../data/".toList ++ b ++ ".json".toList) (by simp)
  rw [getLast?_json] at htrail
  have hsegs : (pathJoin (UPLOADS_DIR env)
      [a, "photos".toList, "../../../data/".toList ++ b ++ ".json".toList]).segs
      = docPath env b := by
    unfold pathJoin
    simp only [List.map_cons, List.map_nil, List.flatten_cons, List.flatten_nil, hsplit,
      splitSlash_of_not_mem a ha.plainSeg.1,
      splitSlash_of_not_mem "photos".toList (by decide), List.append_nil, List.singleton_append,
      List.cons_append, List.nil_append]
    rw [normSegs_plain_cons _ _ _ ha.plainSeg,
      normSegs_plain_cons _ _ _ (by unfold PlainSeg; decide), normSegs_dotdot, normSegs_dotdot,
      normSegs_dotdot, normSegs_plain_cons _ _ _ (by unfold PlainSeg; decide),
      normSegs_plain_cons _ _ _ hb.plainSeg_json]
    simp [normSegs, UPLOADS_DIR, docPath, DATA_DIR]
  cases hj : pathJoin (UPLOADS_DIR env)
      [a, "photos".toList, "../../../data/".toList ++ b ++ ".json".toList] with
  | mk segs trailing =>
    rw [hj] at htrail hsegs
    simp only at htrail hsegs
    rw [htrail, hsegs]

/-- The path that `/api/delete-file` builds for the profile `a`, the type `photos`
and the filename `../../<b>/photos/<name>` is a media file of `b`. -/
theorem pathJoin_to_media (env : Env) {a b name : Str} (ha : ValidId a) (hb : ValidId b)
    (hn : PlainSeg name) :
    pathJoin (UPLOADS_DIR env)
        [a, "photos".toList, "../../".toList ++ b ++ "/photos/".toList ++ name]
      = ⟨UPLOADS_DIR env ++ [b, "photos".toList, name], false⟩ := by
  have hsplit : splitSlash ("../../".toList ++ b ++ "/photos/".toList ++ name) =
      [['.', '.'], ['.', '.'], b, "photos".toList, name] := by
    have e : "../../".toList ++ b ++ "/photos/".toList ++ name =
        ['.', '.'] ++ '/' :: (['.', '.'] ++ '/' :: (b ++ '/' :: ("photos".toList ++ '/' :: name)))
        := by
      simp
    rw [e, splitSlash_append_slash _ _ (by decide), splitSlash_append_slash _ _ (by decide),
      splitSlash_append_slash _ _ hb.plainSeg.1, splitSlash_append_slash _ _ (by decide),
      splitSlash_of_not_mem _ hn.1]
  have htrail := pathJoin_three_trailing (UPLOADS_DIR env) a "photos".toList
    ("../../".toList ++ b ++ "/photos/".toList ++ name) (by simp)
  have hlast : (("../../".toList ++ b ++ "/photos/".toList ++ name).getLast? == some '/')
      = false := by
    rw [List.getLast?_append]
    cases hl : name.getLast? with
    | none =>
      rw [List.getLast?_eq_none_iff] at hl
      exact absurd hl hn.2.1
    | some c =>
      have hc : c ≠ '/' := fun e => hn.1 (e ▸ List.mem_of_getLast?_eq_some hl)
      simp [hc]
  rw [hlast] at htrail
  have hsegs : (pathJoin (UPLOADS_DIR env)
      [a, "photos".toList, "../../".toList ++ b ++ "/photos/".toList ++ name]).segs
      = UPLOADS_DIR env ++ [b, "photos".toList, name] := by
    unfold pathJoin
    simp only [List.map_cons, List.map_nil, List.flatten_cons, List.flatten_nil, hsplit,
      splitSlash_of_not_mem a ha.plainSeg.1,
      splitSlash_of_not_mem "photos".toList (by decide), List.append_nil, List.singleton_append,
      List.cons_append, List.nil_append]
    rw [normSegs_plain_cons _ _ _ ha.plainSeg,
      normSegs_plain_cons _ _ _ (by unfold PlainSeg; decide), normSegs_dotdot, normSegs_dotdot,
      normSegs_plain_cons _ _ _ hb.plainSeg,
      normSegs_plain_cons _ _ _ (by unfold PlainSeg; decide),
      normSegs_plain_cons _ _ _ hn]
    simp [normSegs]
  cases hj : pathJoin (UPLOADS_DIR env)
      [a, "photos".toList, "../../".toList ++ b ++ "/photos/".toList ++ name] with
  | mk segs trailing =>
    rw [hj] at htrail hsegs
    simp only at htrail hsegs
    rw [htrail, hsegs]


theorem validId_bob : ValidId "bob".toList := (idPattern_iff _).1 (by decide)

/-- No document lies on the path of a directory under `uploads`. -/
theorem docPath_not_above (env : Env) (id : Str) (rest : List Str) :
    ¬ docPath env id <+: UPLOADS_DIR env ++ rest := by
  unfold docPath DATA_DIR UPLOADS_DIR
  rw [List.append_assoc, List.append_assoc, List.prefix_append_right_inj]
  intro h
  have h2 := (List.cons_prefix_cons.1 h).1
  exact absurd h2 (by decide)

theorem exampleStore2_eq (sha : Str → Str) :
    exampleStore2 sha =
      ((exampleStore sha).withDirs
          (UPLOADS_DIR (exampleEnv sha) ++ ["bob".toList, "audios".toList])).write
        (docPath (exampleEnv sha) "bob".toList) (.doc (exampleDoc2 sha)) := by
  unfold exampleStore2
  rw [createProfile_valid (exampleEnv sha) _ _ rfl validId_bob, exampleStore_eq]
  rfl

theorem exampleStore2_bob (sha : Str → Str) :
    HasProfile (exampleEnv sha) (exampleStore2 sha) "bob".toList (exampleDoc2 sha) := by
  refine ⟨validId_bob, ?_⟩
  rw [exampleStore2_eq]
  exact FS.write_same _ _ _

theorem exampleStore2_abc (sha : Str → Str) :
    HasProfile (exampleEnv sha) (exampleStore2 sha) "abc".toList (exampleDoc sha) := by
  refine ⟨validId_abc, ?_⟩
  rw [exampleStore2_eq, FS.write_other _ _ (fun e => absurd (docPath_injective _ e) (by decide)),
    FS.withDirs_other _ (docPath_not_above _ _ _)]
  exact (exampleStore_hasProfile sha).2

/-! ## `POST /api/delete-file`: paths outside the profile (C5, C10) -/

/-- The handler of delete-file when a regular file is at the path it builds and
unlinking does not fail. -/
theorem deleteFile_at_file {env : Env} {fs : FS} {id : Str} {d : Profile}
    (h : HasProfile env fs id d) (r : DeleteReq) (hm : r.missing = false)
    (hauth : hashPass env (orEmpty r.passcode) = d.passHash) (p : Path) (f : File)
    (hpath : pathJoin (UPLOADS_DIR env) [id, orEmpty r.type, orEmpty r.filename] = ⟨p, false⟩)
    (hf : fs p = some (.file f)) (hu : env.unlinkThrows p = false) :
    deleteFile env fs (some id) r =
      (⟨200, .text "Deleted"⟩,
        (fs.remove p).write (docPath env id)
          (.doc (removeRecord d (orEmpty r.type) (orEmpty r.filename)))) := by
  rw [deleteFile_stored h r hm, hpath, if_pos hauth, existsSync_plain, hf]
  have hi : fs.isFile p = true := (fs.isFile_iff p).2 ⟨f, hf⟩
  simp only [Option.isSome_some, if_true, hi, hu, Bool.true_eq_false, Bool.false_eq_true,
    if_false]

/-- C10 (code): delete-file joins `type` and `filename` to the path without
checking where the result lies. For two distinct profiles `a` and `b`, a request
addressed to `a` and authorized with the passcode of `a`, with the filename
`../../../data/<b>.json`, is answered `Deleted` and removes the stored document of
`b`; with the filename `../../<b>/photos/<name>` it removes that media file of `b`,
whose record stays in the document of `b`. -/
theorem deleteFile_reaches_other_profile (env : Env) (fs : FS) (a b : Str) (da db : Profile)
    (pass : Str) (hA : HasProfile env fs a da) (hB : HasProfile env fs b db) (hab : a ≠ b)
    (hpass : pass ≠ []) (hauth : hashPass env pass = da.passHash)
    (hu : ∀ p, env.unlinkThrows p = false) :
    ((deleteFile env fs (some a)
        ⟨some "photos".toList, some ("../../../data/".toList ++ b ++ ".json".toList),
          some pass⟩).1 = ⟨200, .text "Deleted"⟩ ∧
      (deleteFile env fs (some a)
        ⟨some "photos".toList, some ("../../../data/".toList ++ b ++ ".json".toList),
          some pass⟩).2 (docPath env b) = none) ∧
    (∀ (name : Str) (f : File), PlainSeg name →
      fs (UPLOADS_DIR env ++ [b, "photos".toList, name]) = some (.file f) →
      (deleteFile env fs (some a)
        ⟨some "photos".toList, some ("../../".toList ++ b ++ "/photos/".toList ++ name),
          some pass⟩).1 = ⟨200, .text "Deleted"⟩ ∧
      (deleteFile env fs (some a)
        ⟨some "photos".toList, some ("../../".toList ++ b ++ "/photos/".toList ++ name),
          some pass⟩).2 (UPLOADS_DIR env ++ [b, "photos".toList, name]) = none ∧
      (deleteFile env fs (some a)
        ⟨some "photos".toList, some ("../../".toList ++ b ++ "/photos/".toList ++ name),
          some pass⟩).2 (docPath env b) = some (.file (.doc db))) := by
  have hdoc_ne : docPath env b ≠ docPath env a := fun e => hab (docPath_injective env e).symm
  constructor
  · have hm : (DeleteReq.missing ⟨some "photos".toList,
        some ("../../../data/".toList ++ b ++ ".json".toList), some pass⟩) = false := by
      simp [DeleteReq.missing, truthy, hpass]
    rw [deleteFile_at_file hA _ hm hauth (docPath env b) (.doc db)
      (pathJoin_to_document env hA.1 hB.1) hB.2 (hu _)]
    refine ⟨rfl, ?_⟩
    show ((fs.remove (docPath env b)).write (docPath env a) _) (docPath env b) = none
    rw [FS.write_other _ _ hdoc_ne, FS.remove_same]
  · intro name f hn hf
    have hm : (DeleteReq.missing ⟨some "photos".toList,
        some ("../../".toList ++ b ++ "/photos/".toList ++ name), some pass⟩) = false := by
      simp [DeleteReq.missing, truthy, hpass]
    rw [deleteFile_at_file hA _ hm hauth _ f (pathJoin_to_media env hA.1 hB.1 hn) hf (hu _)]
    refine ⟨rfl, ?_, ?_⟩
    · show ((fs.remove _).write (docPath env a) _) _ = none
      rw [FS.write_other _ _ (fun e => docPath_ne_of_length env a _ (by simp) e.symm),
        FS.remove_same]
    · show ((fs.remove _).write (docPath env a) _) _ = _
      rw [FS.write_other _ _ hdoc_ne,
        FS.remove_other _ (docPath_ne_of_length env b _ (by simp))]
      exact hB.2

/-- The instance of `deleteFile_reaches_other_profile` on the example store with the
profiles `abc` and `bob`: the owner of `abc` removes the document of `bob`. -/
theorem deleteFile_reaches_other_profile_witness :
    HasProfile (exampleEnv id) (exampleStore2 id) "abc".toList (exampleDoc id) ∧
    HasProfile (exampleEnv id) (exampleStore2 id) "bob".toList (exampleDoc2 id) ∧
    hashPass (exampleEnv id) "secret".toList = (exampleDoc id).passHash ∧
    (deleteFile (exampleEnv id) (exampleStore2 id) (some "abc".toList)
      ⟨some "photos".toList, some "../../../data/bob.json".toList, some "secret".toList⟩).1
      = ⟨200, .text "Deleted"⟩ ∧
    (deleteFile (exampleEnv id) (exampleStore2 id) (some "abc".toList)
      ⟨some "photos".toList, some "../../../data/bob.json".toList, some "secret".toList⟩).2
      (docPath (exampleEnv id) "bob".toList) = none :=
  ⟨exampleStore2_abc id, exampleStore2_bob id, rfl,
    (deleteFile_reaches_other_profile (exampleEnv id) (exampleStore2 id) "abc".toList
      "bob".toList (exampleDoc id) (exampleDoc2 id) "secret".toList (exampleStore2_abc id)
      (exampleStore2_bob id) (by decide) (by decide) rfl (fun _ => rfl)).1⟩

/-- C5 (code): for the filename `../../../data/<a>.json` the path that delete-file
builds is the document of the profile itself. The authorized request finds a
file there, unlinks it, writes the document again and answers `Deleted`: the
file at `<namespace>/photos/<filename>` still exists afterwards. -/
theorem deleteFile_own_document (env : Env) (fs : FS) (a : Str) (da : Profile) (pass : Str)
    (hA : HasProfile env fs a da) (hpass : pass ≠ []) (hauth : hashPass env pass = da.passHash)
    (hu : env.unlinkThrows (docPath env a) = false) :
    existsSync fs (pathJoin (UPLOADS_DIR env)
      [a, "photos".toList, "../../../data/".toList ++ a ++ ".json".toList]) = true ∧
    (deleteFile env fs (some a)
      ⟨some "photos".toList, some ("../../../data/".toList ++ a ++ ".json".toList),
        some pass⟩).1 = ⟨200, .text "Deleted"⟩ ∧
    existsSync
      (deleteFile env fs (some a)
        ⟨some "photos".toList, some ("../../../data/".toList ++ a ++ ".json".toList),
          some pass⟩).2
      (pathJoin (UPLOADS_DIR env)
        [a, "photos".toList, "../../../data/".toList ++ a ++ ".json".toList]) = true := by
  have hm : (DeleteReq.missing ⟨some "photos".toList,
      some ("../../../data/".toList ++ a ++ ".json".toList), some pass⟩) = false := by
    simp [DeleteReq.missing, truthy, hpass]
  rw [deleteFile_at_file hA _ hm hauth (docPath env a) (.doc da)
    (pathJoin_to_document env hA.1 hA.1) hA.2 hu, pathJoin_to_document env hA.1 hA.1,
    existsSync_plain, existsSync_plain, hA.2]
  refine ⟨rfl, rfl, ?_⟩
  show (((fs.remove (docPath env a)).write (docPath env a) _) (docPath env a)).isSome = true
  rw [FS.write_same]
  rfl

/-- The instance of `deleteFile_own_document` on the example store. -/
theorem deleteFile_own_document_witness :
    HasProfile (exampleEnv id) (exampleStore id) "abc".toList (exampleDoc id) ∧
    (deleteFile (exampleEnv id) (exampleStore id) (some "abc".toList)
      ⟨some "photos".toList, some "../../../data/abc.json".toList, some "secret".toList⟩).1
      = ⟨200, .text "Deleted"⟩ ∧
    existsSync
      (deleteFile (exampleEnv id) (exampleStore id) (some "abc".toList)
        ⟨some "photos".toList, some "../../../data/abc.json".toList, some "secret".toList⟩).2
      (pathJoin (UPLOADS_DIR (exampleEnv id))
        ["abc".toList, "photos".toList, "../../../data/abc.json".toList]) = true :=
  ⟨exampleStore_hasProfile id,
    (deleteFile_own_document (exampleEnv id) (exampleStore id) "abc".toList (exampleDoc id)
      "secret".toList (exampleStore_hasProfile id) (by decide) rfl rfl).2⟩

/-! ## Read paths (C4) -/

theorem upPath_json (id : Str) (h : ∀ c ∈ id, c ≠ '.') :
    ∀ b : Bool, upPath b (id ++ ".json".toList) = false := by
  induction id with
  | nil => intro b; cases b <;> decide
  | cons c cs ih =>
    intro b
    have hc : (c == '.') = false := by
      have := h c (by simp)
      simpa using this
    show ((b && c == '.' && _) || upPath (isSep c) (cs ++ ".json".toList)) = false
    rw [ih (fun x hx => h x (by simp [hx])), hc]
    simp

theorem normRelSegs_plain_cons (stack : List Str) (seg : Str) (rest : List Str)
    (h : PlainSeg seg) : normRelSegs stack (seg :: rest) = normRelSegs (seg :: stack) rest := by
  obtain ⟨_, h1, h2, h3⟩ := h
  simp [normRelSegs, h1, h2, h3]

/-- C4 (code): `express.static(__dirname)` serves the stored document itself. For
every existing profile, `GET /data/<id>.json` is answered 200 with the whole
document, `passHash` included. -/
theorem static_route_serves_document (env : Env) (fs : FS) (id : Str) (d : Profile)
    (h : HasProfile env fs id d) :
    getStatic env fs ("/data/".toList ++ id ++ ".json".toList) = ⟨200, .file (.doc d)⟩ ∧
    ("passHash", Val.str d.passHash) ∈ d.toObject := by
  have hsplit : splitSlash ("/data/".toList ++ id ++ ".json".toList) =
      [[], "data".toList, id ++ ".json".toList] := by
    have e : "/data/".toList ++ id ++ ".json".toList =
        [] ++ '/' :: ("data".toList ++ '/' :: (id ++ ".json".toList)) := by
      simp
    rw [e, splitSlash_append_slash _ _ (by decide), splitSlash_append_slash _ _ (by decide),
      splitSlash_of_not_mem _ h.1.plainSeg_json.1]
  have hdot : ∀ c ∈ id, c ≠ '.' := by
    intro c hc e
    rw [e] at hc
    exact not_inIdClass_dot (h.1.2 _ hc)
  have hnul : ∀ c ∈ id, c ≠ Char.ofNat 0 := by
    intro c hc e
    have := h.1.2 c hc
    rw [e] at this
    revert this
    unfold InIdClass
    decide
  have hcontains : ("/data/".toList ++ id ++ ".json".toList).contains (Char.ofNat 0) = false := by
    rw [← Bool.not_eq_true]
    intro hm
    have hm := List.elem_iff.1 hm
    rcases List.mem_append.1 hm with hm | hm
    · rcases List.mem_append.1 hm with hm | hm
      · exact absurd hm (by decide)
      · exact hnul _ hm rfl
    · exact absurd hm (by decide)
  have hsegs : normRelSegs [] (splitSlash ("/data/".toList ++ id ++ ".json".toList)) =
      ["data".toList, id ++ ".json".toList] := by
    rw [hsplit]
    have e0 : normRelSegs [] ([] :: "data".toList :: [id ++ ".json".toList]) =
        normRelSegs [] ("data".toList :: [id ++ ".json".toList]) := by
      simp [normRelSegs]
    rw [e0, normRelSegs_plain_cons _ _ _ (by unfold PlainSeg; decide),
      normRelSegs_plain_cons _ _ _ h.1.plainSeg_json]
    rfl
  have htrail : (("/data/".toList ++ id ++ ".json".toList).getLast? == some '/') = false :=
    getLast?_json _
  have hup : (["data".toList, id ++ ".json".toList].any (upPath true)) = false := by
    simp only [List.any_cons, List.any_nil, upPath_json id hdot true, Bool.or_false]
    decide
  have hhead : ((id ++ ".json".toList).head? == some '.') = false := by
    cases id with
    | nil => exact absurd rfl h.1.1
    | cons c cs =>
      have hc : c ≠ '.' := hdot c (by simp)
      simp [hc]
  have hdotfile : (["data".toList, id ++ ".json".toList].any isDotfile) = false := by
    simp only [List.any_cons, List.any_nil, isDotfile, hhead, Bool.and_false, Bool.or_false]
    decide
  have hdoc : fs (env.dirname ++ ["data".toList, id ++ ".json".toList]) =
      some (.file (.doc d)) := by
    have := h.2
    unfold docPath DATA_DIR at this
    rw [List.append_assoc] at this
    exact this
  have hserve : serveStatic env fs env.dirname ("/data/".toList ++ id ++ ".json".toList) =
      some ⟨200, .file (.doc d)⟩ := by
    unfold serveStatic
    rw [hcontains]
    simp only [hsegs, htrail, hup, hdotfile, Bool.false_and, ite_self, Bool.false_eq_true,
      if_false, hdoc]
  constructor
  · unfold getStatic
    rw [hserve]
  · simp [Profile.toObject]

/-- The instance of `static_route_serves_document` on the example store. -/
theorem static_route_serves_document_witness :
    HasProfile (exampleEnv id) (exampleStore id) "abc".toList (exampleDoc id) ∧
    getStatic (exampleEnv id) (exampleStore id) "/data/abc.json".toList =
      ⟨200, .file (.doc (exampleDoc id))⟩ ∧
    (exampleDoc id).passHash = "secret".toList :=
  ⟨exampleStore_hasProfile id,
    (static_route_serves_document (exampleEnv id) (exampleStore id) "abc".toList (exampleDoc id)
      (exampleStore_hasProfile id)).1, rfl⟩

/-- The handler of `GET /api/profile` returns the stored document without the key
`passHash`, the other eleven keys and their values unchanged and in order. -/
theorem getProfile_strips_passHash (env : Env) (fs : FS) (id : Str) (d : Profile)
    (h : HasProfile env fs id d) :
    getProfile env fs (some id) =
      ⟨200, .object
        [("id", .str d.id), ("name", .str d.name), ("bio", .str d.bio), ("photo", .str d.photo),
         ("story", .str d.story), ("quote", .str d.quote), ("photos", .assets d.photos),
         ("audios", .assets d.audios), ("videos", .assets d.videos),
         ("messages", .msgs d.messages), ("playlists", .refs d.playlists)]⟩ := by
  rw [getProfile_stored h]
  simp [Profile.toObject, List.filter]

/-- The instance of `getProfile_strips_passHash` on the example store. -/
theorem getProfile_strips_passHash_witness :
    HasProfile (exampleEnv id) (exampleStore id) "abc".toList (exampleDoc id) ∧
    (getProfile (exampleEnv id) (exampleStore id) (some "abc".toList)).status = 200 :=
  ⟨exampleStore_hasProfile id, by
    rw [getProfile_strips_passHash (exampleEnv id) (exampleStore id) "abc".toList (exampleDoc id)
      (exampleStore_hasProfile id)]⟩

/-! ## `POST /api/upload`: two parts with one storage filename (C6) -/

theorem tempPath_ne_final (env : Env) (id sub name : Str) (f : UploadedFile) :
    tempPath env id f ≠ UPLOADS_DIR env ++ [id, sub, name] := by
  intro e
  have := congrArg List.length e
  simp [tempPath] at this

theorem storageName_ne_subdir (t : Nat) (o : Str) (m : Option Str) (o2 : Str) :
    storageName t o ≠ subdirOf m o2 := by
  have hdash : '-' ∈ storageName t o := by simp [storageName]
  intro e
  rw [e] at hdash
  rcases subdirOf_cases m o2 with h | h | h | h <;> rw [h] at hdash <;>
    exact absurd hdash (by decide)

/-- The path at which multer stores a part is not on the path of a category
directory. -/
theorem tempPath_not_above (env : Env) (id : Str) (f : UploadedFile) (m : Option Str)
    (o2 : Str) : ¬ tempPath env id f <+: UPLOADS_DIR env ++ [id, subdirOf m o2] := by
  intro hp
  have hlen : (tempPath env id f).length = (UPLOADS_DIR env ++ [id, subdirOf m o2]).length := by
    simp [tempPath]
  have e := hp.eq_of_length hlen
  unfold tempPath at e
  have e2 := List.append_cancel_left e
  have e3 : storageName f.nameClock f.originalname = subdirOf m o2 := by
    simpa using e2
  exact storageName_ne_subdir _ _ _ _ e3

theorem renameSync_old (fs fs2 : FS) (old new : Path) (h : renameSync fs old new = some fs2)
    (hne : old ≠ new) : fs2 old = none := by
  unfold renameSync at h
  cases hf : fs old with
  | none => rw [hf] at h; exact absurd h (by simp)
  | some n =>
    cases n with
    | dir => rw [hf] at h; exact absurd h (by simp)
    | file f =>
      rw [hf] at h
      simp only at h
      split at h
      · exact absurd h (by simp)
      · rw [← Option.some.inj h, FS.write_other _ _ hne, FS.remove_same]

/-- The loop of upload over two parts that multer stored at one path throws, whatever
the file system. -/
theorem uploadLoop_same_path (env : Env) {id : Str} (hv : ValidId id) (f g : UploadedFile)
    (htp : tempPath env id g = tempPath env id f) (doc : Profile) (fs1 : FS) :
    ∃ fs2, uploadLoop env id [storedOf env id f, storedOf env id g] doc fs1 = .error fs2 := by
  rw [uploadLoop_cons env hv]
  cases hm1 : mkdirSync fs1 (UPLOADS_DIR env ++ [id, subdirOf f.mimetype f.originalname]) with
  | none => exact ⟨_, rfl⟩
  | some fs0 =>
    simp only
    cases hr1 : renameSync fs0 (tempPath env id f)
        (UPLOADS_DIR env ++
          [id, subdirOf f.mimetype f.originalname, storageName f.nameClock f.originalname]) with
    | none => exact ⟨_, rfl⟩
    | some fs2 =>
      simp only
      rw [uploadLoop_cons env hv]
      cases hm2 : mkdirSync fs2
          (UPLOADS_DIR env ++ [id, subdirOf g.mimetype g.originalname]) with
      | none => exact ⟨_, rfl⟩
      | some fs3 =>
        have h2 : fs2 (tempPath env id f) = none :=
          renameSync_old _ _ _ _ hr1 (tempPath_ne_final env id _ _ f)
        have h3 : fs3 (tempPath env id g) = none := by
          rw [mkdirSync_some hm2, htp, FS.withDirs_other _ (tempPath_not_above env id f _ _)]
          exact h2
        simp only
        rw [renameSync_none _ _ _ h3]
        exact ⟨_, rfl⟩

/-- C6 (code): when two parts of one authorized upload get the same storage filename
(the same sanitized name at the same clock reading), multer stores both at one
path, the loop moves that file for the first part, and `fs.renameSync` throws
for the second: the handler ends without writing the document, so no record is
added for either part. The exception is thrown inside the callback that multer
calls, so the process ends; when multer cannot store the parts at all, the
request is answered 500 `Upload error`. -/
theorem upload_same_storage_name (env : Env) (fs : FS) (id : Str) (d : Profile)
    (r : UploadReq) (f g : UploadedFile) (h : HasProfile env fs id d)
    (hfiles : r.files = [f, g]) (he : r.multerError = false)
    (hauth : adminOrPass env (orEmpty r.passcode) d = true)
    (hname : storageName f.nameClock f.originalname = storageName g.nameClock g.originalname) :
    ((upload env fs (some id) r).1 = processExit ∨
      (upload env fs (some id) r).1 = ⟨500, .text "Upload error"⟩) ∧
    ((∃ fs1 files, multerStore env id fs r.files = .stored fs1 files) →
      (upload env fs (some id) r).1 = processExit) ∧
    (upload env fs (some id) r).2 (docPath env id) = some (.file (.doc d)) := by
  have htp : tempPath env id g = tempPath env id f := by
    unfold tempPath
    rw [hname]
  have hm := multerStore_hasProfile h r.files
  rw [upload_stored h r he]
  cases hres : multerStore env id fs r.files with
  | exit fs1 =>
    rw [hres] at hm
    exact ⟨Or.inl rfl, fun _ => rfl, hm.2⟩
  | failed fs1 =>
    rw [hres] at hm
    refine ⟨Or.inr rfl, ?_, hm.2⟩
    rintro ⟨a, b, e⟩
    exact absurd e (by simp)
  | stored fs1 sf =>
    rw [hres] at hm
    have hsf : sf = [storedOf env id f, storedOf env id g] := by
      have := (multerStore_stored env h.1 r.files fs fs1 sf hres).2
      rw [this, hfiles]
      rfl
    obtain ⟨fs2, hfs2⟩ := uploadLoop_same_path env h.1 f g htp d fs1
    have hkeep := (uploadLoop_spec env h.1 (docPath env id) (.doc d)
      (by rw [docPath_length]) [f, g] d fs1).1 fs2 hfs2
    simp only
    rw [if_pos hauth, hsf, hfs2]
    exact ⟨Or.inl rfl, fun _ => rfl, hkeep.2 hm.2⟩

/-- The instance of `upload_same_storage_name` on the example store: two parts named
`a.png`, both read the clock at 5; the process ends and the document is as it
was. -/
theorem upload_same_storage_name_witness :
    HasProfile (exampleEnv id) (exampleStore id) "abc".toList (exampleDoc id) ∧
    storageName 5 "a.png".toList = "5-a.png".toList ∧
    (upload (exampleEnv id) (exampleStore id) (some "abc".toList)
      ⟨some "secret".toList,
        [⟨"a.png".toList, some "image/png".toList, .other "one".toList, 5, 6⟩,
         ⟨"a.png".toList, some "image/png".toList, .other "two".toList, 5, 6⟩], false⟩).1
      = processExit ∧
    (upload (exampleEnv id) (exampleStore id) (some "abc".toList)
      ⟨some "secret".toList,
        [⟨"a.png".toList, some "image/png".toList, .other "one".toList, 5, 6⟩,
         ⟨"a.png".toList, some "image/png".toList, .other "two".toList, 5, 6⟩], false⟩).2
      (docPath (exampleEnv id) "abc".toList) = some (.file (.doc (exampleDoc id))) :=
  ⟨exampleStore_hasProfile id, by decide, by decide,
    (upload_same_storage_name (exampleEnv id) (exampleStore id) "abc".toList (exampleDoc id)
      ⟨some "secret".toList,
        [⟨"a.png".toList, some "image/png".toList, .other "one".toList, 5, 6⟩,
         ⟨"a.png".toList, some "image/png".toList, .other "two".toList, 5, 6⟩], false⟩
      ⟨"a.png".toList, some "image/png".toList, .other "one".toList, 5, 6⟩
      ⟨"a.png".toList, some "image/png".toList, .other "two".toList, 5, 6⟩
      (exampleStore_hasProfile id) rfl rfl (by decide) rfl).2.2⟩

/-! ## Storage filenames within a sequence (C9) -/

/-- C9 (code): the storage filename is the clock reading, `-` and the sanitized
original name, and nothing checks that it is new. Two authorized uploads of a
part named `a.png` that both read the clock at 5 (non-decreasing readings) are
both answered 200; the second file replaces the first at
`uploads/abc/photos/5-a.png`, and `photos` holds two records named `5-a.png`. -/
theorem storage_names_collide :
    (upload (exampleEnv id) (exampleStore id) (some "abc".toList)
      ⟨some "secret".toList, [examplePart 5], false⟩).1 = ⟨200, .text "OK"⟩ ∧
    (upload (exampleEnv id)
      (upload (exampleEnv id) (exampleStore id) (some "abc".toList)
        ⟨some "secret".toList, [examplePart 5], false⟩).2
      (some "abc".toList) ⟨some "secret".toList, [examplePart 5], false⟩).1 = ⟨200, .text "OK"⟩ ∧
    (upload (exampleEnv id)
      (upload (exampleEnv id) (exampleStore id) (some "abc".toList)
        ⟨some "secret".toList, [examplePart 5], false⟩).2
      (some "abc".toList) ⟨some "secret".toList, [examplePart 5], false⟩).2
      (docPath (exampleEnv id) "abc".toList) =
      some (.file (.doc { exampleDoc id with photos := [exampleRecord 5, exampleRecord 5] })) ∧
    [exampleRecord 5, exampleRecord 5].map (fun a => a.name) =
      ["5-a.png".toList, "5-a.png".toList] ∧
    ¬ UniqueNames { exampleDoc id with photos := [exampleRecord 5, exampleRecord 5] } := by
  refine ⟨by decide, by decide, by decide, by decide, ?_⟩
  intro hu
  exact absurd hu.1 (by decide)

/-! ## Classification of uploads and the contract of delete-file -/

theorem truthy_of_prefix (lit m : Str) (hl : lit ≠ []) (h : lit.isPrefixOf m = true) :
    truthy (some m) = true := by
  cases m with
  | nil =>
    cases lit with
    | nil => exact absurd rfl hl
    | cons c cs => simp [List.isPrefixOf] at h
  | cons c cs => rfl

/-- The classification of `/api/upload`: a MIME type that starts with `image/`,
`audio/` or `video/` decides (photos, audios, videos), whatever the extension;
when the MIME type is absent, empty or has none of these prefixes, the lower-cased
extension of the original filename decides; anything else is `files`. The record
of a part is appended at the end of the sequence its category names and to no
other, and for `files` the document is unchanged. -/
theorem upload_classification :
    (∀ (m o : Str), "image/".toList.isPrefixOf m = true →
      subdirOf (some m) o = "photos".toList) ∧
    (∀ (m o : Str), "audio/".toList.isPrefixOf m = true →
      subdirOf (some m) o = "audios".toList) ∧
    (∀ (m o : Str), "video/".toList.isPrefixOf m = true →
      subdirOf (some m) o = "videos".toList) ∧
    (∀ (m : Option Str) (o : Str), NoMediaMime m →
      subdirOf m o =
        if toLowerCase (extname o) ∈ [".jpg".toList, ".jpeg".toList, ".png".toList,
            ".webp".toList, ".gif".toList, ".bmp".toList] then "photos".toList
        else if toLowerCase (extname o) ∈ [".mp3".toList, ".wav".toList, ".ogg".toList,
            ".m4a".toList, ".flac".toList] then "audios".toList
        else if toLowerCase (extname o) ∈ [".mp4".toList, ".mov".toList, ".webm".toList,
            ".mkv".toList] then "videos".toList
        else "files".toList) ∧
    (∀ (d : Profile) (a : MediaAsset),
      pushRecord d "photos".toList a = { d with photos := d.photos ++ [a] } ∧
      pushRecord d "audios".toList a = { d with audios := d.audios ++ [a] } ∧
      pushRecord d "videos".toList a = { d with videos := d.videos ++ [a] } ∧
      pushRecord d "files".toList a = d) ∧
    subdirOf (some "image/png".toList) "clip.mp4".toList = "photos".toList ∧
    subdirOf none "clip.mp4".toList = "videos".toList := by
  have hcond : ∀ (lit m : Str) (v : Bool), truthy (some m) = true → lit.isPrefixOf m = v →
      (truthy (some m) && lit.isPrefixOf (orEmpty (some m))) = v := by
    intro lit m v ht hv
    rw [ht, orEmpty_some, hv, Bool.true_and]
  refine ⟨?_, ?_, ?_, ?_, ?_, by decide, by decide⟩
  · intro m o h
    have ht := truthy_of_prefix _ m (by decide) h
    unfold subdirOf
    rw [if_pos (hcond _ m true ht h)]
  · intro m o h
    have ht := truthy_of_prefix _ m (by decide) h
    have h1 : "image/".toList.isPrefixOf m = false := by
      cases m with
      | nil => simp [List.isPrefixOf] at h
      | cons c cs =>
        have hc : c = 'a' := by
          simp [List.isPrefixOf] at h
          exact h.1.symm
        subst hc
        simp [List.isPrefixOf]
    unfold subdirOf
    rw [if_neg (by rw [hcond _ m false ht h1]; simp), if_pos (hcond _ m true ht h)]
  · intro m o h
    have ht := truthy_of_prefix _ m (by decide) h
    have h1 : "image/".toList.isPrefixOf m = false ∧ "audio/".toList.isPrefixOf m = false := by
      cases m with
      | nil => simp [List.isPrefixOf] at h
      | cons c cs =>
        have hc : c = 'v' := by
          simp [List.isPrefixOf] at h
          exact h.1.symm
        subst hc
        simp [List.isPrefixOf]
    unfold subdirOf
    rw [if_neg (by rw [hcond _ m false ht h1.1]; simp),
      if_neg (by rw [hcond _ m false ht h1.2]; simp), if_pos (hcond _ m true ht h)]
  · intro m o h
    have hc : ∀ lit : Str, lit.isPrefixOf (orEmpty m) = false ∨ truthy m = false →
        ¬ ((truthy m && lit.isPrefixOf (orEmpty m)) = true) := by
      intro lit hl
      rcases hl with hl | hl
      · rw [hl, Bool.and_false]; simp
      · rw [hl, Bool.false_and]; simp
    unfold subdirOf
    rcases h with h | ⟨h1, h2, h3⟩
    · rw [if_neg (hc _ (Or.inr h)), if_neg (hc _ (Or.inr h)), if_neg (hc _ (Or.inr h))]
    · rw [if_neg (hc _ (Or.inl h1)), if_neg (hc _ (Or.inl h2)), if_neg (hc _ (Or.inl h3))]
  · intro d a
    exact ⟨rfl, rfl, rfl, rfl⟩

/-- An authorized upload that is answered 200 stores the document with the
records of all its parts appended, each in the sequence of its category, in the
order of the parts. -/
theorem upload_records (env : Env) (fs : FS) (id : Str) (d : Profile) (r : UploadReq)
    (h : HasProfile env fs id d) (hs : (upload env fs (some id) r).1.status = 200) :
    HasProfile env (upload env fs (some id) r).2 id
      (recordAll id d (r.files.map (storedOf env id))) := by
  cases he : r.multerError with
  | true =>
    unfold upload at hs
    simp [truthy_some_of_valid h.1, he] at hs
  | false =>
    rw [upload_stored h r he] at hs ⊢
    cases hres : multerStore env id fs r.files with
    | exit fs1 =>
      rw [hres] at hs
      simp [processExit] at hs
    | failed fs1 =>
      rw [hres] at hs
      simp at hs
    | stored fs1 sf =>
      rw [hres] at hs
      simp only at hs ⊢
      have hsf := (multerStore_stored env h.1 r.files fs fs1 sf hres).2
      by_cases ha : adminOrPass env (orEmpty r.passcode) d = true
      · rw [if_pos ha] at hs ⊢
        rw [hsf] at hs ⊢
        have hspec := uploadLoop_spec env h.1 (docPath env id) (.doc d)
          (by rw [docPath_length]) r.files d fs1
        cases hl : uploadLoop env id (r.files.map (storedOf env id)) d fs1 with
        | error fs2 =>
          rw [hl] at hs
          simp [processExit] at hs
        | ok res =>
          obtain ⟨doc2, fs2⟩ := res
          rw [(hspec.2 doc2 fs2 hl).2]
          exact ⟨h.1, FS.write_same _ _ _⟩
      · rw [if_neg ha] at hs
        simp at hs

/-- The instance of `upload_records` for one part uploaded to the example store. -/
theorem upload_records_witness :
    HasProfile (exampleEnv id) (exampleStore id) "abc".toList (exampleDoc id) ∧
    HasProfile (exampleEnv id)
      (upload (exampleEnv id) (exampleStore id) (some "abc".toList)
        ⟨some "secret".toList, [examplePart 5], false⟩).2 "abc".toList
      { exampleDoc id with photos := [exampleRecord 5] } :=
  ⟨exampleStore_hasProfile id,
    upload_records (exampleEnv id) (exampleStore id) "abc".toList (exampleDoc id)
      ⟨some "secret".toList, [examplePart 5], false⟩ (exampleStore_hasProfile id) (by decide)⟩


/-- The contract of delete-file on an existing profile, for an authorized request
with all fields present and a category among photos, audios and videos: when no
file or directory exists at the path the answer is 404 and the store is
unchanged; when a directory is at the path, or unlinking the file throws, the
answer is 500 and the store is unchanged; otherwise the answer is `Deleted`,
the file at the path is removed and the document is written
with the records named `filename` filtered out of the category's sequence, the
other two sequences and every other field unchanged. Unless the path is the
document of the profile itself, no file is at the path afterwards. -/
theorem deleteFile_contract (env : Env) (fs : FS) (id : Str) (d : Profile) (r : DeleteReq)
    (h : HasProfile env fs id d) (hm : r.missing = false)
    (hauth : hashPass env (orEmpty r.passcode) = d.passHash)
    (htype : orEmpty r.type = "photos".toList ∨ orEmpty r.type = "audios".toList ∨
      orEmpty r.type = "videos".toList) :
    (existsSync fs (pathJoin (UPLOADS_DIR env) [id, orEmpty r.type, orEmpty r.filename]) = false →
      deleteFile env fs (some id) r = (⟨404, .text "File not found"⟩, fs)) ∧
    (existsSync fs (pathJoin (UPLOADS_DIR env) [id, orEmpty r.type, orEmpty r.filename]) = true →
      fs (pathJoin (UPLOADS_DIR env) [id, orEmpty r.type, orEmpty r.filename]).segs = some .dir ∨
        env.unlinkThrows
          (pathJoin (UPLOADS_DIR env) [id, orEmpty r.type, orEmpty r.filename]).segs = true →
      deleteFile env fs (some id) r = (⟨500, .text "Delete failed"⟩, fs)) ∧
    (existsSync fs (pathJoin (UPLOADS_DIR env) [id, orEmpty r.type, orEmpty r.filename]) = true →
      fs (pathJoin (UPLOADS_DIR env) [id, orEmpty r.type, orEmpty r.filename]).segs ≠ some .dir →
      env.unlinkThrows
        (pathJoin (UPLOADS_DIR env) [id, orEmpty r.type, orEmpty r.filename]).segs = false →
      ∃ d2 : Profile,
        deleteFile env fs (some id) r =
          (⟨200, .text "Deleted"⟩,
            (fs.remove
              (pathJoin (UPLOADS_DIR env) [id, orEmpty r.type, orEmpty r.filename]).segs).write
              (docPath env id) (.doc d2)) ∧
        mediaSeq d2 (orEmpty r.type) =
          (mediaSeq d (orEmpty r.type)).filter (fun a => a.name != orEmpty r.filename) ∧
        (∀ a ∈ mediaSeq d2 (orEmpty r.type), a.name ≠ orEmpty r.filename) ∧
        (mediaSeq d2 (orEmpty r.type)).Sublist (mediaSeq d (orEmpty r.type)) ∧
        (∀ t, t ≠ orEmpty r.type → mediaSeq d2 t = mediaSeq d t) ∧
        d2.id = d.id ∧ d2.name = d.name ∧ d2.bio = d.bio ∧ d2.photo = d.photo ∧
        d2.story = d.story ∧ d2.quote = d.quote ∧ d2.passHash = d.passHash ∧
        d2.messages = d.messages ∧ d2.playlists = d.playlists ∧
        ((pathJoin (UPLOADS_DIR env) [id, orEmpty r.type, orEmpty r.filename]).segs
            ≠ docPath env id →
          (deleteFile env fs (some id) r).2
            (pathJoin (UPLOADS_DIR env) [id, orEmpty r.type, orEmpty r.filename]).segs = none)) := by
  have hform := deleteFile_stored h r hm
  rw [if_pos hauth] at hform
  refine ⟨?_, ?_, ?_⟩
  · intro he
    rw [hform, if_neg (by rw [he]; simp)]
  · intro he hu
    rw [hform, if_pos he]
    rcases hu with hu | hu
    · have : fs.isFile
          (pathJoin (UPLOADS_DIR env) [id, orEmpty r.type, orEmpty r.filename]).segs = false := by
        unfold FS.isFile
        rw [hu]
      rw [if_pos this]
    · split
      · rfl
      · rfl
  · intro he hd hu
    have hfile : fs.isFile
        (pathJoin (UPLOADS_DIR env) [id, orEmpty r.type, orEmpty r.filename]).segs = true := by
      unfold existsSync at he
      unfold FS.isFile
      cases hn : fs (pathJoin (UPLOADS_DIR env) [id, orEmpty r.type, orEmpty r.filename]).segs with
      | none => rw [hn] at he; simp at he
      | some n =>
        cases n with
        | dir => exact absurd hn hd
        | file f => rfl
    rw [if_pos he, if_neg (by rw [hfile]; simp), if_neg (by rw [hu]; simp)] at hform
    refine ⟨removeRecord d (orEmpty r.type) (orEmpty r.filename), hform, ?_⟩
    have hseq : mediaSeq (removeRecord d (orEmpty r.type) (orEmpty r.filename)) (orEmpty r.type) =
        (mediaSeq d (orEmpty r.type)).filter (fun a => a.name != orEmpty r.filename) := by
      rcases htype with ht | ht | ht <;> rw [ht] <;> rfl
    have hother : ∀ t, t ≠ orEmpty r.type →
        mediaSeq (removeRecord d (orEmpty r.type) (orEmpty r.filename)) t = mediaSeq d t := by
      intro t hne
      rcases htype with ht | ht | ht <;> rw [ht] at hne ⊢ <;>
        simp only [mediaSeq, removeRecord] <;> simp [hne] <;>
        split <;> simp_all
    have hfields : ∀ t f : Str,
        (removeRecord d t f).id = d.id ∧ (removeRecord d t f).name = d.name ∧
        (removeRecord d t f).bio = d.bio ∧ (removeRecord d t f).photo = d.photo ∧
        (removeRecord d t f).story = d.story ∧ (removeRecord d t f).quote = d.quote ∧
        (removeRecord d t f).passHash = d.passHash ∧
        (removeRecord d t f).messages = d.messages ∧
        (removeRecord d t f).playlists = d.playlists := by
      intro t f
      unfold removeRecord
      split
      · exact ⟨rfl, rfl, rfl, rfl, rfl, rfl, rfl, rfl, rfl⟩
      · split
        · exact ⟨rfl, rfl, rfl, rfl, rfl, rfl, rfl, rfl, rfl⟩
        · split
          · exact ⟨rfl, rfl, rfl, rfl, rfl, rfl, rfl, rfl, rfl⟩
          · exact ⟨rfl, rfl, rfl, rfl, rfl, rfl, rfl, rfl, rfl⟩
    obtain ⟨f1, f2, f3, f4, f5, f6, f7, f8, f9⟩ := hfields (orEmpty r.type) (orEmpty r.filename)
    refine ⟨hseq, ?_, ?_, hother, f1, f2, f3, f4, f5, f6, f7, f8, f9, ?_⟩
    · intro a ha
      rw [hseq] at ha
      have := (List.mem_filter.1 ha).2
      simpa using this
    · rw [hseq]
      exact List.filter_sublist _
    · intro hne
      rw [hform]
      show ((fs.remove _).write (docPath env id) _) _ = none
      rw [FS.write_other _ _ hne, FS.remove_same]

/-- The instance of `deleteFile_contract` after `a.png` is uploaded to the example
store at the clock reading 5: deleting `5-a.png` from photos is answered `Deleted`
and no file is left at its path. -/
theorem deleteFile_contract_witness :
    HasProfile (exampleEnv id)
      (upload (exampleEnv id) (exampleStore id) (some "abc".toList)
        ⟨some "secret".toList, [examplePart 5], false⟩).2 "abc".toList
      { exampleDoc id with photos := [exampleRecord 5] } ∧
    existsSync
      (upload (exampleEnv id) (exampleStore id) (some "abc".toList)
        ⟨some "secret".toList, [examplePart 5], false⟩).2
      (pathJoin (UPLOADS_DIR (exampleEnv id))
        ["abc".toList, "photos".toList, "5-a.png".toList]) = true ∧
    ∃ d2 : Profile,
      (deleteFile (exampleEnv id)
        (upload (exampleEnv id) (exampleStore id) (some "abc".toList)
          ⟨some "secret".toList, [examplePart 5], false⟩).2
        (some "abc".toList)
        ⟨some "photos".toList, some "5-a.png".toList, some "secret".toList⟩).1
        = ⟨200, .text "Deleted"⟩ ∧
      d2.photos = [] := by
  have h1 : HasProfile (exampleEnv id)
      (upload (exampleEnv id) (exampleStore id) (some "abc".toList)
        ⟨some "secret".toList, [examplePart 5], false⟩).2 "abc".toList
      { exampleDoc id with photos := [exampleRecord 5] } := ⟨validId_abc, by decide⟩
  have hex : existsSync
      (upload (exampleEnv id) (exampleStore id) (some "abc".toList)
        ⟨some "secret".toList, [examplePart 5], false⟩).2
      (pathJoin (UPLOADS_DIR (exampleEnv id))
        ["abc".toList, "photos".toList, "5-a.png".toList]) = true := by
    decide
  obtain ⟨d2, hd, hseq, _⟩ :=
    (deleteFile_contract (exampleEnv id) _ "abc".toList _
      ⟨some "photos".toList, some "5-a.png".toList, some "secret".toList⟩ h1 (by decide) rfl
      (Or.inl rfl)).2.2 hex (by decide) rfl
  refine ⟨h1, hex, d2, by rw [hd], ?_⟩
  have : mediaSeq d2 "photos".toList = [] := by
    rw [show "photos".toList = orEmpty (some "photos".toList) from rfl, hseq]
    decide
  exact this

end MemoryCode
